import Mathlib

/-
Verification development for the Fi-Supporter directory-mirroring tool
(src/main.py). The Python program is shallowly embedded: paths are Lean
`String`s over the Windows separator, the filesystem is an explicit
finite state, fallible calls return `Except`/`Option`, and the visitor
traversals, the retry queue and the watcher event handlers become pure
state-passing functions. Each claim of the specification is settled by a
theorem about these definitions.
-/

namespace FiSupporter

/-! ## String and path primitives

Python `str.startswith` / `str.removeprefix` are character-level prefix
operations; `os.path` functions are the Windows (`ntpath`) variants,
modelled for backslash-separated, drive-letter paths. -/

/-- Character-level prefix test; `chPrefix p s` is true when `p` is a
prefix of `s` (model of Python `str.startswith` on the char lists). -/
def chPrefix : List Char → List Char → Bool
  | [], _ => true
  | _ :: _, [] => false
  | a :: as, b :: bs => a == b && chPrefix as bs

/-- Model of Python `s.startswith(pre)`. -/
def startswith (s pre : String) : Bool := chPrefix pre.data s.data

/-- Model of Python `s.removeprefix(pre)`: drops `pre` when it is a
prefix of `s`, otherwise returns `s` unchanged. -/
def dropPrefixStr (s pre : String) : String :=
  if chPrefix pre.data s.data then String.mk (s.data.drop pre.data.length) else s

/-- Whether a path string ends in the Windows separator. -/
def endsWithSep (s : String) : Bool := s.data.getLast? == some '\\'

/-- Whether a string is a drive-absolute Windows path (`c:\...`). -/
def isDriveAbs (s : String) : Bool :=
  match s.data with
  | _ :: ':' :: '\\' :: _ => true
  | _ => false

/-- Model of `ntpath.join a b` for the shapes the program produces: a
drive-absolute right operand wins, otherwise `b` is appended to `a` with
a separator inserted unless `a` already ends in one. (The drive-relative
corner cases of `ntpath.join` are not exercised by the program.) -/
def osJoin (a b : String) : String :=
  if isDriveAbs b then b
  else if endsWithSep a then a ++ b
  else a ++ "\\" ++ b

/-- Model of `ntpath.abspath` without normalization: a relative string is
resolved against the current working directory. In particular the result
is never the empty string when `cwd` is nonempty. -/
def abspath (cwd s : String) : String :=
  if isDriveAbs s then s else osJoin cwd s

/-- Split off the `X:` drive of a char-level path (model of
`ntpath.splitdrive` for drive-letter paths). -/
def splitDriveChars : List Char → List Char × List Char
  | c :: ':' :: rest => ([c, ':'], rest)
  | cs => ([], cs)

/-- Everything up to and including the last separator (`p[:i]` in
`ntpath.split`); empty when there is no separator. -/
def takeToLastSep (cs : List Char) : List Char :=
  (cs.reverse.dropWhile (fun c => c ≠ '\\')).reverse

/-- Strip trailing separators, keeping the string when it consists only
of separators (the `head.rstrip(seps) or head` step of `ntpath.split`). -/
def rstripSepOrKeep (cs : List Char) : List Char :=
  let r := (cs.reverse.dropWhile (fun c => c = '\\')).reverse
  if r.isEmpty then cs else r

/-- The directory part of `ntpath.split`, i.e. the `folder` in
`os.path.split(dst)` as used by `ensureParentFolderExists`. A drive root
`C:\` is its own directory part. -/
def splitDir (p : String) : String :=
  let (d, rest) := splitDriveChars p.data
  String.mk (d ++ rstripSepOrKeep (takeToLastSep rest))

/-- The tail part of `ntpath.split`: the component after the last
separator (faithful for paths that contain a separator, the only shape
the watcher feeds it). -/
def splitTail (p : String) : String :=
  String.mk (p.data.reverse.takeWhile (fun c => c ≠ '\\')).reverse

/-! ### Basic lemmas about the primitives -/

/-! ## The rule model (`Include`, `Configuration`) -/

/-- Embedding of the `Include` configuration rule (class `Include` in
`main.py`): active flag, include paths, target path, excludes. -/
structure Include where
  isActive : Bool
  includePaths : List String
  targetPath : String
  excludes : List String
deriving DecidableEq

/-- Embedding of `Configuration`: the ordered include rules. -/
structure Configuration where
  includes : List Include
deriving DecidableEq

/-! ## C1: the validation visitor over excludes

`ConfigurationValidationVisitor.visitExclude` keeps an exclude when
`exclude.startswith(includePath)` holds for some include path of the
current parent rule, and otherwise removes it (`list.remove`, i.e. first
occurrence) from the parent's `excludes`. `Include.accept` drives it over
a snapshot `list(self.excludes)` of the exclude list. -/

/-- The sub-path test `visitExclude` actually performs: some include path
is a character prefix of the exclude. -/
def keepExclude (includePaths : List String) (exclude : String) : Bool :=
  includePaths.any (fun includePath => startswith exclude includePath)

/-- One `visitExclude` call: state is the parent's current `excludes`
list; a failing exclude is removed (first occurrence, like
`list.remove`). -/
def visitExcludeStep (includePaths : List String) (excludes : List String)
    (exclude : String) : List String :=
  if keepExclude includePaths exclude then excludes else excludes.erase exclude

/-- `Include.accept(ConfigurationValidationVisitor())`: visit every entry
of the snapshot of `excludes` in order, mutating the rule's list. -/
def validateInclude (inc : Include) : Include :=
  { inc with excludes := inc.excludes.foldl (visitExcludeStep inc.includePaths) inc.excludes }

/-- `Configuration.accept(ConfigurationValidationVisitor())`: each rule is
visited with itself as parent context. -/
def validateConfiguration (config : Configuration) : Configuration :=
  ⟨config.includes.map validateInclude⟩

/-- Modelled from the spec: a *proper* sub-path, an entry strictly inside
the directory `ip` (the claim's notion, to compare with the code's
`startswith` test). -/
def isProperSubPath (e ip : String) : Bool := chPrefix (ip ++ "\\").data e.data

/-! ## C3: the retry queue (`AttemptsManager`)

`AttemptOperation.operation` is an arbitrary callable; in the embedding
an operation carries an identity (`opId`, Python object identity, by
which `list.remove` finds it) and the outcome of calling it on this tick
(`succeeds`: `tryExecute` returns `True` when the callable returns,
`False` when it raises). -/

/-- Embedding of `AttemptOperation` for one tick. -/
structure AttemptOperation where
  opId : Nat
  succeeds : Bool
deriving DecidableEq

/-- `AttemptOperation.tryExecute`: call the operation; `true` on normal
return, `false` when it raises (the exception is only reported). -/
def tryExecute (op : AttemptOperation) : Bool := op.succeeds

/-- Embedding of `AttemptsManager`: the pending list and whether the
timer is armed (`_hasStarted`). -/
structure AttemptsManager where
  operations : List AttemptOperation
  hasStarted : Bool
deriving DecidableEq

/-- `AttemptsManager.stop`. -/
def amStop (m : AttemptsManager) : AttemptsManager := ⟨m.operations, false⟩

/-- `AttemptsManager.start` (timer re-armed). -/
def amStart (m : AttemptsManager) : AttemptsManager := ⟨m.operations, true⟩

/-- `AttemptsManager.Dequeue`: remove each listed operation
(`list.remove`, first occurrence) with a stop/start around it when the
timer was armed. -/
def amDequeue (m : AttemptsManager) (toRemove : List AttemptOperation) : AttemptsManager :=
  if m.hasStarted then
    amStart ⟨toRemove.foldl List.erase m.operations, false⟩
  else
    ⟨toRemove.foldl List.erase m.operations, m.hasStarted⟩

/-- The `for op in self._operations` loop of `inquire`: attempt each
operation once in order, recording the attempt log and the successes
(`operationsToRemove`). -/
def inquireLoop : List AttemptOperation → List Nat × List AttemptOperation
  | [] => ([], [])
  | op :: rest =>
    let r := inquireLoop rest
    (op.opId :: r.1, if tryExecute op then op :: r.2 else r.2)

/-- `AttemptsManager.inquire`: run the loop, dequeue the successes when
there are any, then stop, restarting only when operations remain.
Returns the manager together with the attempt log. -/
def inquire (m : AttemptsManager) : AttemptsManager × List Nat :=
  let r := inquireLoop m.operations
  let m1 := if r.2.length ≠ 0 then amDequeue m r.2 else m
  let m2 := amStop m1
  (if m2.operations.length ≠ 0 then amStart m2 else m2, r.1)

/-! ## Watch registrations and C6: `deactivateRules`

A `Watcher` pairs a source root with a base target path (plus the
source folder name and the ignore patterns installed by
`configureObserver`). `deactivateRules` iterates over a clone of the
watcher list and, for every deactivated rule, stops and removes each
watcher whose `baseTargetPath` equals the rule's target path and whose
`sourcePath` is one of the rule's include paths. It never touches the
global `attemptsManager`. -/

/-- Embedding of the `Watcher` fields the claims depend on. -/
structure Watcher where
  sourcePath : String
  baseTargetPath : String
  sourceFolderName : String
  ignorePaths : List String
deriving DecidableEq

/-- A pending operation of the retry queue, tagged with the watch
registration (source root, target root) it belongs to. -/
structure PendingOp where
  sourceRoot : String
  targetRoot : String
deriving DecidableEq

/-- The match condition of the inner loop of `deactivateRules`. -/
def wmatch (w : Watcher) (inc : Include) : Bool :=
  w.baseTargetPath == inc.targetPath && inc.includePaths.contains w.sourcePath

/-- The inner `for watcher in watchersClone` loop for one deactivated
rule: state is (current watcher list, watchers stopped so far); a match
stops the watcher and removes it (`list.remove`). -/
def deactivateScan (inc : Include) :
    List Watcher → List Watcher × List Watcher → List Watcher × List Watcher
  | [], acc => acc
  | w :: cl, acc =>
    if wmatch w inc then deactivateScan inc cl (acc.1.erase w, acc.2 ++ [w])
    else deactivateScan inc cl acc

/-- The outer `for include in deactivatedIncludes` loop. -/
def deactivateLoop (clone : List Watcher) :
    List Include → List Watcher × List Watcher → List Watcher × List Watcher
  | [], acc => acc
  | inc :: rest, acc => deactivateLoop clone rest (deactivateScan inc clone acc)

/-- `deactivateRules`: returns (the watcher list after removals, the
watchers that were stopped). -/
def deactivateRules (deactivatedIncludes : List Include) (watchers : List Watcher) :
    List Watcher × List Watcher :=
  if deactivatedIncludes.isEmpty then (watchers, [])
  else deactivateLoop watchers deactivatedIncludes (watchers, [])

/-- `deactivateRules` together with the retry queue: the function body
never references `attemptsManager`, so the pending-operation list passes
through unchanged. -/
def deactivateRulesFull (deactivatedIncludes : List Include) (watchers : List Watcher)
    (ops : List PendingOp) : (List Watcher × List Watcher) × List PendingOp :=
  (deactivateRules deactivatedIncludes watchers, ops)

/-- Whether some deactivated rule matches the watcher. -/
def matchedBy (incs : List Include) (w : Watcher) : Bool :=
  incs.any (fun inc => wmatch w inc)

/-! ## C4: configuration parsing

`Include.fromObject` / `Configuration.parseIncludes` / `Configuration.fromObj`
over a JSON-like object. The ambient filesystem is the list of existing
paths (`path.exists`), and `cwd` resolves `path.abspath`. Failure modes:
`configInvalid` models a `raiseError(..., INVALID_CONFIG_CAT)` call
(which raises `Exception`), `typeError` models the uncaught `TypeError`
of `list(None)` when the `paths` key is absent. -/

/-- Error outcomes of the parsing pipeline. -/
inductive ParseErr where
  | configInvalid (msg : String)
  | typeError
deriving DecidableEq

/-- The source's `NO_INCLUDE_PATHS_ERROR` message. -/
def NO_INCLUDE_PATHS_ERROR : String := "You have not specified any valid include paths"

/-- One raw include object: the `paths`, `targetPath` and `excludes`
keys, each possibly absent (`obj.get` returning `None`). -/
structure IncludeObj where
  paths : Option (List String)
  targetPath : Option String
  excludes : Option (List String)
deriving DecidableEq

/-- A raw configuration object: the `includes` key, whose entries may
themselves be null. -/
structure ConfigObj where
  includes : Option (List (Option IncludeObj))
deriving DecidableEq

/-- Python `str(x)` on `obj.get(...)`: `None` prints as `"None"`. -/
def pyStr : Option String → String
  | none => "None"
  | some s => s

/-- `pathIfExists`: the path itself when truthy and existing, otherwise
`None` (after a non-fatal warning). -/
def pathIfExists (ex : List String) (filePath : String) : Option String :=
  if filePath = "" then none
  else if ex.contains filePath then some filePath
  else none

/-- `existentPaths`: keep the existing paths, made absolute. -/
def existentPaths (ex : List String) (cwd : String) (paths : List String) : List String :=
  paths.filterMap (fun p => (pathIfExists ex p).map (fun q => abspath cwd q))

/-- `Include.fromObject`. Note `targetPath = path.abspath(str(obj.get(TARGET_PATH)))`:
an absent key becomes the string `"None"`, which `abspath` resolves
against `cwd`, so the subsequent emptiness check can never fire. -/
def fromObject (ex : List String) (cwd : String) (obj : IncludeObj) :
    Except ParseErr Include :=
  match obj.paths with
  | none => .error .typeError
  | some pathsObj =>
    if pathsObj.isEmpty then .error (.configInvalid NO_INCLUDE_PATHS_ERROR)
    else
      let paths := existentPaths ex cwd pathsObj
      if paths.isEmpty then .error (.configInvalid NO_INCLUDE_PATHS_ERROR)
      else
        let targetPath := abspath cwd (pyStr obj.targetPath)
        if targetPath = "" then .error (.configInvalid "targetPath is unspecified")
        else
          let excludes := match obj.excludes with
            | some l => if l.isEmpty then [] else existentPaths ex cwd l
            | none => []
          .ok ⟨true, paths, targetPath, excludes⟩

/-- The `for includeObj in includesObj` loop of `parseIncludes`: null
entries are skipped, each object entry is parsed and appended. -/
def parseIncludeList (ex : List String) (cwd : String) :
    List (Option IncludeObj) → Except ParseErr (List Include)
  | [] => .ok []
  | none :: rest => parseIncludeList ex cwd rest
  | some obj :: rest =>
    match fromObject ex cwd obj with
    | .error e => .error e
    | .ok inc =>
      match parseIncludeList ex cwd rest with
      | .error e => .error e
      | .ok incs => .ok (inc :: incs)

/-- `Configuration.parseIncludes`: `None` for an absent/empty/all-null
`includes` sequence, otherwise the parsed rules. -/
def parseIncludes (ex : List String) (cwd : String) (obj : ConfigObj) :
    Except ParseErr (Option (List Include)) :=
  match obj.includes with
  | none => .ok none
  | some l =>
    if l.isEmpty then .ok none
    else
      match parseIncludeList ex cwd l with
      | .error e => .error e
      | .ok incs => .ok (if incs.isEmpty then none else some incs)

/-- `Configuration.fromObj`: fatal `ConfigInvalid` when `parseIncludes`
yields nothing. -/
def fromObj (ex : List String) (cwd : String) (obj : ConfigObj) :
    Except ParseErr Configuration :=
  match parseIncludes ex cwd obj with
  | .error e => .error e
  | .ok none => .error (.configInvalid "No includes specified")
  | .ok (some incs) =>
    if incs.isEmpty then .error (.configInvalid "No includes specified")
    else .ok ⟨incs⟩

/-! ## Filesystem state

A finite model of the parts of the filesystem the program touches: files
(path to content and modification time, the `os.stat` signature data
`filecmp.cmp` compares), directories, plus two failure oracles:
`failCopy` (sources whose `shutil.copy2` raises a non-permission
`OSError`) and `permLocked` (paths on which remove/rename/copy raise
`PermissionError`). Operations fail atomically. -/

/-- File payload: content bytes and modification time (`copy2` copies
both; `filecmp.cmp`'s shallow signature is (size, mtime)). -/
structure FileData where
  content : String
  mtime : Nat
deriving DecidableEq

/-- Exception classes distinguished by the handlers: `PermissionError`
(retried) versus any other `OSError` (reported and dropped). -/
inductive PyErr where
  | permission (msg : String)
  | osError (msg : String)
deriving DecidableEq

/-- The filesystem state. -/
structure FState where
  files : List (String × FileData)
  dirs : List String
  failCopy : List String
  permLocked : List String
deriving DecidableEq

/-- Look a file up by path. -/
def findFile (files : List (String × FileData)) (p : String) : Option FileData :=
  match files with
  | [] => none
  | e :: rest => if e.1 = p then some e.2 else findFile rest p

/-- Remove a file entry. -/
def removeFileL (files : List (String × FileData)) (p : String) :
    List (String × FileData) :=
  files.filter (fun e => e.1 ≠ p)

/-- Create/overwrite a file entry. -/
def setFileL (files : List (String × FileData)) (p : String) (d : FileData) :
    List (String × FileData) :=
  (p, d) :: removeFileL files p

def fsIsFile (fs : FState) (p : String) : Bool := (findFile fs.files p).isSome

def fsIsDir (fs : FState) (p : String) : Bool := fs.dirs.contains p

/-- `os.path.exists`. -/
def fsExists (fs : FState) (p : String) : Bool := fsIsFile fs p || fsIsDir fs p

/-! ## `ensureParentFolderExists` (C9), `CopyMethod`, `tryCopy2` (C5, C7) -/

/-- `ensureParentFolderExists(dst)`: take `folder = os.path.split(dst)[0]`;
if it does not exist, recursively ensure its own parent and `os.mkdir`
it. Python recursion is modelled with explicit fuel; `none` means the
recursion did not terminate within the fuel (as happens at a missing
drive root, where `splitDir` is a fixpoint). -/
def ensureParentFolderExists : Nat → FState → String → Option FState
  | 0, fs, dst =>
    if fsExists fs (splitDir dst) then some fs else none
  | f + 1, fs, dst =>
    if fsExists fs (splitDir dst) then some fs
    else
      (ensureParentFolderExists f fs (splitDir dst)).map
        (fun fs2 => { fs2 with dirs := splitDir dst :: fs2.dirs })

/-- A filesystem state is parent-closed when the parent of every
recorded file or directory also exists (true of a real filesystem).
Stated over the finite path list so that it is decidable. -/
def fsClosed (fs : FState) : Prop :=
    ∀ p ∈ fs.dirs ++ fs.files.map (fun e => e.1), fsExists fs (splitDir p) = true

instance fsClosedDecidable (fs : FState) : Decidable (fsClosed fs) :=
  inferInstanceAs (Decidable (∀ p ∈ fs.dirs ++ fs.files.map (fun e => e.1),
    fsExists fs (splitDir p) = true))

/-- `shutil.copy2`: copy content and metadata (mtime); raises `OSError`
for a missing or `failCopy` source and `PermissionError` for a locked
destination. -/
def copy2F (fs : FState) (src dst : String) : Except PyErr FState :=
  match findFile fs.files src with
  | none => .error (.osError ("cannot copy " ++ src))
  | some d =>
    if fs.failCopy.contains src then .error (.osError ("cannot copy " ++ src))
    else if fs.permLocked.contains dst then .error (.permission ("locked " ++ dst))
    else .ok { fs with files := setFileL fs.files dst d }

/-- `CopyMethod`: ensure the destination's parent folder chain exists,
then `shutil.copy2` (which returns `dst`). `none` is fuel exhaustion of
the parent recursion. -/
def CopyMethod (fuel : Nat) (fs : FState) (src dst : String) :
    Option (Except PyErr (FState × String)) :=
  (ensureParentFolderExists fuel fs dst).map
    (fun fs1 =>
      match copy2F fs1 src dst with
      | .error e => .error e
      | .ok fs2 => .ok (fs2, dst))

/-- The comparison `filecmp.cmp` performs with its default
`shallow=True`: files are equal when their `os.stat` signatures (size,
mtime) agree, and only otherwise are the contents compared. -/
def cmpShallow (a b : FileData) : Bool :=
  (a.content.length == b.content.length && a.mtime == b.mtime)
    || a.content == b.content

/-- `filecmp.cmp(src, dst)` (default `shallow=True`); raises when either
operand is not a regular file. -/
def cmpF (fs : FState) (f1 f2 : String) : Except PyErr Bool :=
  match findFile fs.files f1, findFile fs.files f2 with
  | some a, some b => .ok (cmpShallow a b)
  | _, _ => .error (.osError ("cannot stat " ++ f1 ++ " " ++ f2))

/-- `os.remove`. -/
def osRemove (fs : FState) (p : String) : Except PyErr FState :=
  match findFile fs.files p with
  | some _ =>
    if fs.permLocked.contains p then .error (.permission ("locked " ++ p))
    else .ok { fs with files := removeFileL fs.files p }
  | none => .error (.osError ("cannot find " ++ p))

/-- Event-log entries produced by the handlers: console/log messages,
warnings, error events, and retry-queue enqueues (`QueueCallable`). -/
inductive Note where
  | message (msg : String)
  | warning (category msg : String)
  | errorEvent (category msg : String)
  | enqueued (msg : String)
deriving DecidableEq

/-- The category string `COPY_FILES_CAT`. -/
def COPY_FILES_CAT : String := "Unable to copy"

/-- The category string `MONITOR_CAT`. -/
def MONITOR_CAT : String := "Monitor changes reflection"

/-- Render the error message carried by an exception. -/
def errText : PyErr → String
  | .permission m => m
  | .osError m => m

/-- The `try` body of `tryCopy2`: skip when `filecmp.cmp` says equal,
otherwise delete an existing destination and `CopyMethod`. An error
carries the state and notes accumulated before the raise. -/
def tryCopy2Body (fuel : Nat) (fs : FState) (src dst : String) :
    Option (Except (PyErr × FState × List Note) (FState × List Note)) :=
  if fsExists fs dst then
    match cmpF fs src dst with
    | .error e => some (.error (e, fs, []))
    | .ok true => some (.ok (fs, []))
    | .ok false =>
      match osRemove fs dst with
      | .error e => some (.error (e, fs, []))
      | .ok fs1 =>
        (CopyMethod fuel fs1 src dst).map
          (fun r =>
            match r with
            | .error e => .error (e, fs1, [])
            | .ok (fs2, _) =>
              .ok (fs2, [Note.message ("Copied " ++ src ++ " to " ++ dst)]))
  else
    (CopyMethod fuel fs src dst).map
      (fun r =>
        match r with
        | .error e => .error (e, fs, [])
        | .ok (fs2, _) =>
          .ok (fs2, [Note.message ("Copied " ++ src ++ " to " ++ dst)]))

/-- `tryCopy2`: the body with `except OSError` turned into a non-fatal
warning (`raiseWarning` does not raise). -/
def tryCopy2 (fuel : Nat) (fs : FState) (src dst : String) :
    Option (FState × List Note) :=
  (tryCopy2Body fuel fs src dst).map
    (fun r =>
      match r with
      | .ok out => out
      | .error (e, fs1, n1) => (fs1, n1 ++ [Note.warning COPY_FILES_CAT (errText e)]))

/-! ## C7 and C5: per-file copy semantics of `tryCopy2` -/

/-! ## The live watcher's event handlers (C8, C10, and C2's ignore path)

`Watcher.shouldIgnore` string-prefix-filters event paths against
`os.path.join(sourcePath, ignorePath)`; `destinationPath` maps a source
path under the watched root to the target tree. The `_delete`, `_rename`
and `_create` helpers perform the filesystem work; the `on_*` handlers
wrap them in `except PermissionError` (enqueue into the retry queue) and
`except OSError` (report an error event and drop). -/

/-- `Watcher.shouldIgnore`. -/
def shouldIgnore (w : Watcher) (p : String) : Bool :=
  w.ignorePaths.any (fun ignorePath => startswith p (osJoin w.sourcePath ignorePath))

/-- The `targetPath` property of `Watcher`. -/
def watcherTargetPath (w : Watcher) : String :=
  osJoin w.baseTargetPath w.sourceFolderName

/-- `Watcher.destinationPath`: strip the source root and the leading
separator, re-root under the target path. -/
def destinationPath (w : Watcher) (fromPath : String) : String :=
  osJoin (watcherTargetPath w) (dropPrefixStr (dropPrefixStr fromPath w.sourcePath) "\\")

/-- `Watcher.nameIsDifferent`: compare the `os.path.split` tails. -/
def nameIsDifferent (srcPath destPath : String) : Bool :=
  splitTail srcPath != splitTail destPath

/-- `shutil.rmtree`: remove a directory and everything below it;
`FileNotFoundError` (an `OSError`) on a missing path. -/
def rmtree (fs : FState) (p : String) : Except PyErr FState :=
  if fsIsDir fs p then
    if fs.permLocked.contains p then .error (.permission ("locked " ++ p))
    else .ok { fs with
      dirs := fs.dirs.filter (fun d => !(d == p || startswith d (p ++ "\\"))),
      files := fs.files.filter (fun e => !startswith e.1 (p ++ "\\")) }
  else .error (.osError ("cannot find " ++ p))

/-- Renaming rewrites a path that equals or lies under the old name. -/
def rewritePath (a b p : String) : String :=
  if p = a then b
  else if startswith p (a ++ "\\") then b ++ dropPrefixStr p a
  else p

/-- `os.rename` (Windows semantics: fails when the destination exists). -/
def osRename (fs : FState) (a b : String) : Except PyErr FState :=
  if fs.permLocked.contains a || fs.permLocked.contains b then
    .error (.permission ("locked " ++ a ++ " " ++ b))
  else if fsExists fs b then .error (.osError ("file exists " ++ b))
  else
    match findFile fs.files a with
    | some d => .ok { fs with files := setFileL (removeFileL fs.files a) b d }
    | none =>
      if fsIsDir fs a then
        .ok { fs with
          dirs := fs.dirs.map (rewritePath a b),
          files := fs.files.map (fun e => (rewritePath a b e.1, e.2)) }
      else .error (.osError ("cannot find " ++ a))

/-- `Watcher._delete`: `os.remove` a file, `shutil.rmtree` anything
else, then report the deletion. -/
def deleteF (fs : FState) (destination : String) : Except PyErr (FState × List Note) :=
  if fsIsFile fs destination then
    match osRemove fs destination with
    | .error e => .error e
    | .ok fs1 => .ok (fs1, [Note.message (destination ++ " has been deleted!")])
  else
    match rmtree fs destination with
    | .error e => .error e
    | .ok fs1 => .ok (fs1, [Note.message (destination ++ " has been deleted!")])

/-- `Watcher.on_deleted`: ignore-filter, map the path, `_delete`;
`PermissionError` queues a retry, other `OSError`s are reported and
dropped. -/
def on_deleted (w : Watcher) (fs : FState) (srcPath : String) : FState × List Note :=
  if shouldIgnore w srcPath then (fs, [])
  else
    let destination := destinationPath w srcPath
    match deleteF fs destination with
    | .ok out => out
    | .error (.permission _) =>
      (fs, [Note.enqueued ("Deletion of " ++ destinationPath w destination
        ++ " operation has been queued")])
    | .error (.osError m) => (fs, [Note.errorEvent MONITOR_CAT m])

/-- `Watcher._rename`: delete any existing target at the new mapped
path, then `os.rename` old to new. Errors carry the state and notes
already produced. -/
def renameF (fs : FState) (targetSourcePath targetDestPath : String) :
    Except (PyErr × FState × List Note) (FState × List Note) :=
  if fsExists fs targetDestPath then
    match deleteF fs targetDestPath with
    | .error e => .error (e, fs, [])
    | .ok (fs1, n1) =>
      match osRename fs1 targetSourcePath targetDestPath with
      | .error e => .error (e, fs1, n1)
      | .ok fs2 =>
        .ok (fs2, n1 ++ [Note.message (targetSourcePath ++ " has been moved to "
          ++ targetDestPath ++ "!")])
  else
    match osRename fs targetSourcePath targetDestPath with
    | .error e => .error (e, fs, [])
    | .ok fs2 =>
      .ok (fs2, [Note.message (targetSourcePath ++ " has been moved to "
        ++ targetDestPath ++ "!")])

/-- `Watcher.on_moved`: ignore-filter on the source path; act only when
the old mapped destination exists and the last path component changed. -/
def on_moved (w : Watcher) (fs : FState) (srcPath destPath : String) : FState × List Note :=
  if shouldIgnore w srcPath then (fs, [])
  else
    let targetSourcePath := destinationPath w srcPath
    let targetDestPath := destinationPath w destPath
    if fsExists fs targetSourcePath && nameIsDifferent srcPath destPath then
      match renameF fs targetSourcePath targetDestPath with
      | .ok out => out
      | .error (.permission _, fs1, n1) =>
        (fs1, n1 ++ [Note.enqueued ("Rename of " ++ targetSourcePath
          ++ " operation has been queued")])
      | .error (.osError m, fs1, n1) => (fs1, n1 ++ [Note.errorEvent MONITOR_CAT m])
    else (fs, [])

/-- `Watcher.copyItem`: copy a source path to its mapped destination. -/
def copyItem (fuel : Nat) (w : Watcher) (fs : FState) (srcPath : String) :
    Option (Except PyErr (FState × String)) :=
  CopyMethod fuel fs srcPath (destinationPath w srcPath)

/-- `Watcher._create`: only regular files are copied. -/
def createF (fuel : Nat) (w : Watcher) (fs : FState) (srcPath : String) :
    Option (Except PyErr (FState × List Note)) :=
  if fsIsFile fs srcPath then
    (copyItem fuel w fs srcPath).map
      (fun r =>
        match r with
        | .error e => .error e
        | .ok (fs2, destination) =>
          .ok (fs2, [Note.message (destination ++ " has been created!")]))
  else some (.ok (fs, []))

/-- `Watcher.on_created`. -/
def on_created (fuel : Nat) (w : Watcher) (fs : FState) (srcPath : String) :
    Option (FState × List Note) :=
  if shouldIgnore w srcPath then some (fs, [])
  else
    (createF fuel w fs srcPath).map
      (fun r =>
        match r with
        | .ok out => out
        | .error (.permission _) =>
          (fs, [Note.enqueued ("Deletion of " ++ destinationPath w srcPath
            ++ " operation has been queued")])
        | .error (.osError m) => (fs, [Note.errorEvent MONITOR_CAT m]))

/-! ## C2: initial-sync ignores (`arrangeIgnorePatterns` + `shutil.copytree`)

`arrangeIgnorePatterns` turns each exclude that starts with an include
path into that exclude with `includeSrc + os.sep` stripped.
`backupSinglePath` hands these to `shutil.ignore_patterns`, whose
callable is invoked by `copytree` once per directory with that
directory's entry *names* and filters them with `fnmatch.fnmatch`:
a glob match supporting `*`, `?` and `[...]` character classes, with an
unterminated `[` treated as a literal character. The matcher is modelled
below (`fnMatchAux`, driven by fuel bounding the strictly decreasing sum
of the pattern and name lengths). Two deliberate simplifications, both
only enlarging the set of names the real program ignores and affecting
no theorem below: Windows `fnmatch.fnmatch` first case-folds both sides
through `os.path.normcase` (the model matches case-sensitively, i.e.
`fnmatch.fnmatchcase`), and a degenerate reversed range such as `[z-a]`
is modelled as empty rather than as a regex error. The source tree is
modelled as a rose tree; `copyEntryList` returns the relative component
paths of the files `copytree` copies. -/

/-- `arrangeIgnorePatterns(include)`: the list comprehension over
excludes (outer) and include paths (inner). -/
def arrangeIgnorePatterns (inc : Include) : List String :=
  inc.excludes.flatMap (fun exclude =>
    inc.includePaths.filterMap (fun includeSrc =>
      if startswith exclude includeSrc
      then some (dropPrefixStr exclude (includeSrc ++ "\\"))
      else none))

mutual
/-- A source directory entry. -/
inductive Entry where
  | file (name : String)
  | dir (name : String) (children : EntryList)
/-- A directory listing. -/
inductive EntryList where
  | nil
  | cons (e : Entry) (es : EntryList)
end

/-- Split an fnmatch character-class body at its closing `]`; `none`
when the class is unterminated. -/
def splitAtRb : List Char → Option (List Char × List Char)
  | [] => none
  | ']' :: t => some ([], t)
  | c :: t => (splitAtRb t).map (fun r => (c :: r.1, r.2))

/-- Parse the fnmatch class following an opening `[`: an optional
leading `!` negates, a `]` in first member position is a literal member,
then everything up to the closing `]` is the body. Returns
(negated, body, rest of the pattern); `none` when unterminated, in which
case `fnmatch` treats the `[` as a literal character. -/
def parseClass : List Char → Option (Bool × List Char × List Char)
  | '!' :: ']' :: t => (splitAtRb t).map (fun r => (true, ']' :: r.1, r.2))
  | '!' :: t => (splitAtRb t).map (fun r => (true, r.1, r.2))
  | ']' :: t => (splitAtRb t).map (fun r => (false, ']' :: r.1, r.2))
  | t => (splitAtRb t).map (fun r => (false, r.1, r.2))

/-- Membership of a character in a class body: `a-b` spans a code-point
range (a trailing or leading `-` is a literal member), every other
character is a literal member. -/
def classMember : List Char → Char → Bool
  | a :: '-' :: b :: rest, c => (a ≤ c && c ≤ b) || classMember rest c
  | a :: rest, c => (a == c) || classMember rest c
  | [], _ => false

/-- The fnmatch glob matcher over (pattern, name) character lists. Every
recursive call strictly decreases the summed length of pattern and name,
so fuel equal to that sum makes the fuel-exhaustion arm unreachable. -/
def fnMatchAux : Nat → List Char → List Char → Bool
  | 0, p, s => p.isEmpty && s.isEmpty
  | fuel + 1, p, s =>
    match p, s with
    | [], s2 => s2.isEmpty
    | '*' :: ps, s2 =>
      fnMatchAux fuel ps s2
        || (match s2 with
            | [] => false
            | _ :: s3 => fnMatchAux fuel ('*' :: ps) s3)
    | '?' :: ps, _ :: s3 => fnMatchAux fuel ps s3
    | '?' :: _, [] => false
    | '[' :: ps, s2 =>
      (match parseClass ps with
        | none =>
          match s2 with
          | c2 :: s3 => ('[' == c2) && fnMatchAux fuel ps s3
          | [] => false
        | some (neg, body, rest) =>
          match s2 with
          | c2 :: s3 => (classMember body c2 != neg) && fnMatchAux fuel rest s3
          | [] => false)
    | c :: ps, c2 :: s3 => (c == c2) && fnMatchAux fuel ps s3
    | _ :: _, [] => false

/-- Model of `fnmatch.fnmatchcase(name, pat)` (see the section comment
for the two conservative simplifications relative to Windows
`fnmatch.fnmatch`). -/
def fnmatchB (name pat : String) : Bool :=
  fnMatchAux (pat.data.length + name.data.length + 1) pat.data name.data

mutual
/-- The relative paths `shutil.copytree` copies from one entry, with
`shutil.ignore_patterns(*pats)` pruning any entry whose *name* is
fnmatch-matched by some pattern. -/
def copyEntry (pats : List String) : Entry → List (List String)
  | .file n => if pats.any (fun pat => fnmatchB n pat) then [] else [[n]]
  | .dir n cs =>
    if pats.any (fun pat => fnmatchB n pat) then []
    else (copyEntryList pats cs).map (fun p => n :: p)
/-- `copyEntry` over a directory listing. -/
def copyEntryList (pats : List String) : EntryList → List (List String)
  | .nil => []
  | .cons e es => copyEntry pats e ++ copyEntryList pats es
end

/-! ## Theorems -/

theorem strData_append (a b : String) : (a ++ b).data = a.data ++ b.data := by
  cases a; cases b; rfl

theorem strMk_data (s : String) : String.mk s.data = s := by
  cases s; rfl

theorem chPrefix_self_append : ∀ (l m : List Char), chPrefix l (l ++ m) = true := by
  intro l m
  induction l with
  | nil => rfl
  | cons a as ih => simp [chPrefix, ih]

theorem dropPrefixStr_append (a b : String) :
    dropPrefixStr (a ++ b) a = b := by
  unfold dropPrefixStr
  rw [strData_append, chPrefix_self_append]
  simp [List.drop_left, strMk_data]

theorem startswith_append (a b : String) : startswith (a ++ b) a = true := by
  unfold startswith
  rw [strData_append]
  exact chPrefix_self_append _ _

/-- The visit-and-erase fold over a snapshot computes a filter: invariant
form, with the already-processed prefix `pre` folded into the state. -/
theorem foldl_visitExcludeStep (ips : List String) :
    ∀ (s pre : List String),
      s.foldl (visitExcludeStep ips) (pre.filter (keepExclude ips) ++ s)
        = pre.filter (keepExclude ips) ++ s.filter (keepExclude ips) := by
  intro s
  induction s with
  | nil => intro pre; simp
  | cons a s ih =>
    intro pre
    by_cases ha : keepExclude ips a
    · have hstep : visitExcludeStep ips (pre.filter (keepExclude ips) ++ a :: s) a
          = pre.filter (keepExclude ips) ++ a :: s := by
        simp [visitExcludeStep, ha]
      have hshape : pre.filter (keepExclude ips) ++ a :: s
          = (pre ++ [a]).filter (keepExclude ips) ++ s := by
        simp [List.filter_append, ha]
      calc (a :: s).foldl (visitExcludeStep ips) (pre.filter (keepExclude ips) ++ a :: s)
          = s.foldl (visitExcludeStep ips) ((pre ++ [a]).filter (keepExclude ips) ++ s) := by
            rw [List.foldl_cons, hstep, hshape]
        _ = (pre ++ [a]).filter (keepExclude ips) ++ s.filter (keepExclude ips) := ih (pre ++ [a])
        _ = pre.filter (keepExclude ips) ++ (a :: s).filter (keepExclude ips) := by
            simp [List.filter_append, ha]
    · have hnotmem : a ∉ pre.filter (keepExclude ips) := by
        intro hmem
        exact ha (List.of_mem_filter hmem)
      have hstep : visitExcludeStep ips (pre.filter (keepExclude ips) ++ a :: s) a
          = pre.filter (keepExclude ips) ++ s := by
        simp only [visitExcludeStep, ha, if_neg, Bool.false_eq_true, not_false_iff, ite_false]
        rw [List.erase_append_right _ hnotmem, List.erase_cons_head]
      have hshape : pre.filter (keepExclude ips) ++ s
          = (pre ++ [a]).filter (keepExclude ips) ++ s := by
        simp [List.filter_append, ha]
      calc (a :: s).foldl (visitExcludeStep ips) (pre.filter (keepExclude ips) ++ a :: s)
          = s.foldl (visitExcludeStep ips) ((pre ++ [a]).filter (keepExclude ips) ++ s) := by
            rw [List.foldl_cons, hstep, hshape]
        _ = (pre ++ [a]).filter (keepExclude ips) ++ s.filter (keepExclude ips) := ih (pre ++ [a])
        _ = pre.filter (keepExclude ips) ++ (a :: s).filter (keepExclude ips) := by
            simp [List.filter_append, ha]

/-- C1 (counterexample): an exclude equal to an include path survives
validation — `startswith` accepts it — yet it is not a *proper* sub-path
of any include path, refuting the claim as stated. -/
theorem c1_equal_exclude_survives :
    validateInclude ⟨true, ["C:\\data"], "D:\\backup", ["C:\\data"]⟩
      = ⟨true, ["C:\\data"], "D:\\backup", ["C:\\data"]⟩
    ∧ isProperSubPath "C:\\data" "C:\\data" = false := by
  constructor
  · rfl
  · rfl

/-- C1 (amended): after the validation traversal, a rule's `excludes`
list is exactly the original entries that have some include path as a
character prefix (`startswith`, which also accepts equality and
non-component-boundary extensions); all other entries are removed. -/
theorem c1_validate_excludes_filter (inc : Include) :
    (validateInclude inc).excludes
      = inc.excludes.filter (keepExclude inc.includePaths) := by
  have h := foldl_visitExcludeStep inc.includePaths inc.excludes []
  simpa using h

theorem inquireLoop_log (ops : List AttemptOperation) :
    (inquireLoop ops).1 = ops.map (fun op => op.opId) := by
  induction ops with
  | nil => rfl
  | cons op rest ih => simp [inquireLoop, ih]

theorem inquireLoop_toRemove (ops : List AttemptOperation) :
    (inquireLoop ops).2 = ops.filter tryExecute := by
  induction ops with
  | nil => rfl
  | cons op rest ih =>
    by_cases h : tryExecute op
    · simp [inquireLoop, ih, h, List.filter_cons]
    · simp [inquireLoop, ih, h, List.filter_cons]

theorem foldl_erase_cons_of_not_mem (a : AttemptOperation) :
    ∀ (s t : List AttemptOperation), a ∉ s →
      s.foldl List.erase (a :: t) = a :: s.foldl List.erase t := by
  intro s
  induction s with
  | nil => intro t _; rfl
  | cons b s ih =>
    intro t hmem
    have hba : b ≠ a := fun h => hmem (h ▸ List.mem_cons_self b s)
    have h1 : (a :: t).erase b = a :: t.erase b := by
      apply List.erase_cons_tail
      simp [beq_eq_false_iff_ne]
      exact fun h => hba h.symm
    simp only [List.foldl_cons, h1]
    exact ih (t.erase b) (fun h => hmem (List.mem_cons_of_mem b h))

/-- Removing the successful sublist from a duplicate-free pending list
leaves exactly the failed operations, in order. -/
theorem foldl_erase_filter :
    ∀ (ops : List AttemptOperation), ops.Nodup →
      (ops.filter tryExecute).foldl List.erase ops
        = ops.filter (fun op => !tryExecute op) := by
  intro ops
  induction ops with
  | nil => intro _; rfl
  | cons a rest ih =>
    intro hnd
    have hna : a ∉ rest := (List.nodup_cons.mp hnd).1
    have hrest : rest.Nodup := (List.nodup_cons.mp hnd).2
    by_cases h : tryExecute a
    · have : (a :: rest).filter tryExecute = a :: rest.filter tryExecute := by
        simp [List.filter_cons, h]
      rw [this, List.foldl_cons, List.erase_cons_head]
      rw [List.filter_cons_of_neg (by simp [h])]
      exact ih hrest
    · have hfe : (a :: rest).filter tryExecute = rest.filter tryExecute := by
        simp [List.filter_cons, h]
      have hnf : a ∉ rest.filter tryExecute :=
        fun hm => hna (List.mem_of_mem_filter hm)
      rw [hfe, foldl_erase_cons_of_not_mem a _ rest hnf,
        List.filter_cons_of_pos (by simp [h])]
      rw [ih hrest]

/-- C3: on a duplicate-free queue, one `inquire` tick attempts every
queued operation exactly once in enqueue order, removes exactly the
operations whose callable returned, keeps exactly the ones that raised,
and leaves the timer armed iff some operation remains queued. -/
theorem c3_inquire_tick (m : AttemptsManager) (hnd : m.operations.Nodup) :
    (inquire m).2 = m.operations.map (fun op => op.opId)
    ∧ (inquire m).1.operations = m.operations.filter (fun op => !tryExecute op)
    ∧ ((inquire m).1.hasStarted = true ↔ (inquire m).1.operations ≠ []) := by
  have hlog : (inquireLoop m.operations).1 = m.operations.map (fun op => op.opId) :=
    inquireLoop_log m.operations
  have hrem : (inquireLoop m.operations).2 = m.operations.filter tryExecute :=
    inquireLoop_toRemove m.operations
  have hops : (if (inquireLoop m.operations).2.length ≠ 0
        then amDequeue m (inquireLoop m.operations).2 else m).operations
      = m.operations.filter (fun op => !tryExecute op) := by
    by_cases hz : (inquireLoop m.operations).2.length ≠ 0
    · rw [if_pos hz]
      unfold amDequeue
      by_cases hs : m.hasStarted
      · simp only [hs, if_pos, amStart, amStop]
        rw [hrem]
        exact foldl_erase_filter m.operations hnd
      · simp only [hs, Bool.false_eq_true, if_neg, not_false_iff]
        rw [hrem]
        exact foldl_erase_filter m.operations hnd
    · rw [if_neg hz]
      push_neg at hz
      rw [hrem] at hz
      have hempty : m.operations.filter tryExecute = [] := List.eq_nil_of_length_eq_zero hz
      have : ∀ op ∈ m.operations, tryExecute op = false := by
        intro op hmem
        by_contra hc
        have : op ∈ m.operations.filter tryExecute :=
          List.mem_filter.mpr ⟨hmem, by simpa using hc⟩
        simp [hempty] at this
      calc m.operations = m.operations.filter (fun _ => true) := by simp
        _ = m.operations.filter (fun op => !tryExecute op) := by
            apply List.filter_congr
            intro op hmem
            simp [this op hmem]
  refine ⟨by simp only [inquire]; exact hlog, ?_, ?_⟩
  · simp only [inquire]
    by_cases hz2 : (amStop (if (inquireLoop m.operations).2.length ≠ 0
        then amDequeue m (inquireLoop m.operations).2 else m)).operations.length ≠ 0
    · rw [if_pos hz2]
      simpa only [amStart, amStop] using hops
    · rw [if_neg hz2]
      simpa only [amStop] using hops
  · simp only [inquire]
    by_cases hz2 : (amStop (if (inquireLoop m.operations).2.length ≠ 0
        then amDequeue m (inquireLoop m.operations).2 else m)).operations.length ≠ 0
    · rw [if_pos hz2]
      simp only [amStart, amStop] at hz2 ⊢
      have hne : (if (inquireLoop m.operations).2.length ≠ 0
          then amDequeue m (inquireLoop m.operations).2 else m).operations ≠ [] := by
        intro hnil
        rw [hnil] at hz2
        exact hz2 rfl
      exact ⟨fun _ => hne, fun _ => trivial⟩
    · rw [if_neg hz2]
      push_neg at hz2
      simp only [amStop] at hz2 ⊢
      have hnil : (if (inquireLoop m.operations).2.length ≠ 0
          then amDequeue m (inquireLoop m.operations).2 else m).operations = [] :=
        List.eq_nil_of_length_eq_zero hz2
      rw [hnil]
      simp

/-- C3 witness: a two-element queue where the first operation succeeds
and the second raises; after the tick only the second remains and the
timer is re-armed. -/
theorem c3_inquire_tick_witness :
    (inquire ⟨[⟨0, true⟩, ⟨1, false⟩], true⟩).2 = [0, 1]
    ∧ (inquire ⟨[⟨0, true⟩, ⟨1, false⟩], true⟩).1.operations = [⟨1, false⟩]
    ∧ ((inquire ⟨[⟨0, true⟩, ⟨1, false⟩], true⟩).1.hasStarted = true
        ↔ (inquire ⟨[⟨0, true⟩, ⟨1, false⟩], true⟩).1.operations ≠ []) := by
  have h := c3_inquire_tick ⟨[⟨0, true⟩, ⟨1, false⟩], true⟩ (by decide)
  exact ⟨h.1, by simpa using h.2.1, h.2.2⟩

theorem deactivateScan_stopped (inc : Include) :
    ∀ (cl : List Watcher) (acc : List Watcher × List Watcher),
      (deactivateScan inc cl acc).2 = acc.2 ++ cl.filter (fun w => wmatch w inc) := by
  intro cl
  induction cl with
  | nil => intro acc; simp [deactivateScan]
  | cons w cl ih =>
    intro acc
    by_cases h : wmatch w inc
    · simp [deactivateScan, h, ih, List.filter_cons]
    · simp [deactivateScan, h, ih, List.filter_cons]

theorem deactivateScan_remaining (inc : Include) :
    ∀ (cl ws st : List Watcher), ws.Nodup →
      (deactivateScan inc cl (ws, st)).1
        = ws.filter (fun x => !(wmatch x inc && cl.contains x)) := by
  intro cl
  induction cl with
  | nil =>
    intro ws st _
    simp [deactivateScan]
  | cons w cl ih =>
    intro ws st hnd
    by_cases h : wmatch w inc
    · have herase : ws.erase w = ws.filter (fun x => x != w) := hnd.erase_eq_filter w
      calc (deactivateScan inc (w :: cl) (ws, st)).1
          = (deactivateScan inc cl (ws.erase w, st ++ [w])).1 := by
            simp [deactivateScan, h]
        _ = (ws.erase w).filter (fun x => !(wmatch x inc && cl.contains x)) :=
            ih _ _ (hnd.erase w)
        _ = ws.filter (fun x => !(wmatch x inc && (w :: cl).contains x)) := by
            rw [herase, List.filter_filter]
            apply List.filter_congr
            intro x _
            by_cases hxw : x = w
            · subst hxw
              simp [h]
            · simp [List.contains_cons, hxw, bne_iff_ne]
    · calc (deactivateScan inc (w :: cl) (ws, st)).1
          = (deactivateScan inc cl (ws, st)).1 := by simp [deactivateScan, h]
        _ = ws.filter (fun x => !(wmatch x inc && cl.contains x)) := ih _ _ hnd
        _ = ws.filter (fun x => !(wmatch x inc && (w :: cl).contains x)) := by
            apply List.filter_congr
            intro x _
            by_cases hxw : x = w
            · subst hxw
              simp [h]
            · simp [List.contains_cons, hxw]

theorem deactivateLoop_remaining (clone : List Watcher) :
    ∀ (incs : List Include) (ws st : List Watcher), ws.Nodup →
      (∀ x ∈ ws, x ∈ clone) →
      (deactivateLoop clone incs (ws, st)).1
        = ws.filter (fun x => !matchedBy incs x) := by
  intro incs
  induction incs with
  | nil =>
    intro ws st _ _
    simp [deactivateLoop, matchedBy]
  | cons inc rest ih =>
    intro ws st hnd hsub
    have hscan1 : (deactivateScan inc clone (ws, st)).1
        = ws.filter (fun x => !wmatch x inc) := by
      rw [deactivateScan_remaining inc clone ws st hnd]
      apply List.filter_congr
      intro x hx
      have hcont : clone.contains x = true := List.elem_eq_true_of_mem (hsub x hx)
      rw [hcont, Bool.and_true]
    have hpair : deactivateScan inc clone (ws, st)
        = (ws.filter (fun x => !wmatch x inc), (deactivateScan inc clone (ws, st)).2) := by
      rw [← hscan1]
    calc (deactivateLoop clone (inc :: rest) (ws, st)).1
        = (deactivateLoop clone rest (deactivateScan inc clone (ws, st))).1 := by
          simp [deactivateLoop]
      _ = (ws.filter (fun x => !wmatch x inc)).filter (fun x => !matchedBy rest x) := by
          rw [hpair]
          exact ih _ _ (hnd.filter _)
            (fun x hx => hsub x (List.mem_of_mem_filter hx))
      _ = ws.filter (fun x => !matchedBy (inc :: rest) x) := by
          rw [List.filter_filter]
          apply List.filter_congr
          intro x _
          simp [matchedBy, Bool.and_comm]

theorem deactivateLoop_stopped (clone : List Watcher) :
    ∀ (incs : List Include) (acc : List Watcher × List Watcher) (w : Watcher),
      w ∈ (deactivateLoop clone incs acc).2
        ↔ (w ∈ acc.2 ∨ (w ∈ clone ∧ matchedBy incs w = true)) := by
  intro incs
  induction incs with
  | nil =>
    intro acc w
    simp [deactivateLoop, matchedBy]
  | cons inc rest ih =>
    intro acc w
    calc w ∈ (deactivateLoop clone (inc :: rest) acc).2
        ↔ w ∈ (deactivateLoop clone rest (deactivateScan inc clone acc)).2 := by
          simp [deactivateLoop]
      _ ↔ (w ∈ (deactivateScan inc clone acc).2
            ∨ (w ∈ clone ∧ matchedBy rest w = true)) := ih _ w
      _ ↔ (w ∈ acc.2 ∨ (w ∈ clone ∧ matchedBy (inc :: rest) w = true)) := by
          rw [deactivateScan_stopped]
          simp only [List.mem_append, List.mem_filter, matchedBy, List.any_cons,
            Bool.or_eq_true]
          tauto

/-- C6 (counterexample): deactivating the one rule stops and discards its
matching watch registration, but the pending operation belonging to that
registration stays in the retry queue — `deactivateRules` never calls
`AttemptsManager.Dequeue`, refuting the queue-pruning part of the claim. -/
theorem c6_queue_not_pruned :
    deactivateRulesFull [⟨true, ["C:\\data"], "E:\\backup", []⟩]
        [⟨"C:\\data", "E:\\backup", "data", []⟩]
        [⟨"C:\\data", "E:\\backup"⟩]
      = (([], [⟨"C:\\data", "E:\\backup", "data", []⟩]),
          [⟨"C:\\data", "E:\\backup"⟩]) := by
  rfl

/-- C6 (amended): when rules deactivate, exactly the watch registrations
whose target root equals a deactivated rule's target path and whose
source root is one of that rule's include paths are stopped and removed
from the watcher list; the Retry Queue is left untouched, so pending
operations of the stopped registrations remain queued. (Hypotheses: the
watcher list is duplicate-free and no watcher matches two deactivated
rules — otherwise the second `list.remove` of the same watcher would
raise in Python.) -/
theorem c6_deactivate (incs : List Include) (watchers : List Watcher)
    (ops : List PendingOp) (hnd : watchers.Nodup)
    (hone : ∀ w ∈ watchers, (incs.filter (fun inc => wmatch w inc)).length ≤ 1) :
    (deactivateRulesFull incs watchers ops).2 = ops
    ∧ (deactivateRulesFull incs watchers ops).1.1
        = watchers.filter (fun w => !matchedBy incs w)
    ∧ ∀ w, w ∈ (deactivateRulesFull incs watchers ops).1.2
        ↔ (w ∈ watchers ∧ matchedBy incs w = true) := by
  refine ⟨rfl, ?_, ?_⟩
  · simp only [deactivateRulesFull, deactivateRules]
    by_cases he : incs.isEmpty
    · rw [if_pos he]
      have : incs = [] := List.isEmpty_iff.mp he
      subst this
      simp [matchedBy]
    · rw [if_neg he]
      exact deactivateLoop_remaining watchers incs watchers [] hnd (fun x hx => hx)
  · intro w
    simp only [deactivateRulesFull, deactivateRules]
    by_cases he : incs.isEmpty
    · rw [if_pos he]
      have : incs = [] := List.isEmpty_iff.mp he
      subst this
      simp [matchedBy]
    · rw [if_neg he]
      have h := deactivateLoop_stopped watchers incs (watchers, []) w
      simpa using h

/-- C6 witness: one deactivated rule, a matching and a non-matching
watcher, one pending operation; the pending operation survives, the
matching watcher is stopped. -/
theorem c6_deactivate_witness :
    (deactivateRulesFull [⟨true, ["C:\\data"], "E:\\backup", []⟩]
        [⟨"C:\\data", "E:\\backup", "data", []⟩, ⟨"C:\\other", "F:\\x", "other", []⟩]
        [⟨"C:\\data", "E:\\backup"⟩]).2 = [⟨"C:\\data", "E:\\backup"⟩]
    ∧ (deactivateRulesFull [⟨true, ["C:\\data"], "E:\\backup", []⟩]
        [⟨"C:\\data", "E:\\backup", "data", []⟩, ⟨"C:\\other", "F:\\x", "other", []⟩]
        [⟨"C:\\data", "E:\\backup"⟩]).1.1
      = [⟨"C:\\other", "F:\\x", "other", []⟩] := by
  have h := c6_deactivate [⟨true, ["C:\\data"], "E:\\backup", []⟩]
    [⟨"C:\\data", "E:\\backup", "data", []⟩, ⟨"C:\\other", "F:\\x", "other", []⟩]
    [⟨"C:\\data", "E:\\backup"⟩] (by decide) (by decide)
  refine ⟨h.1, ?_⟩
  rw [h.2.1]
  decide

/-- C4 (failing input): an include rule whose `targetPath` key is absent
parses *successfully* — `str(None)` is `"None"`, `abspath` resolves it to
`cwd ++ "\\None"`, which is non-empty, so the dead `targetPath is
unspecified` check never raises and no `ConfigInvalid` occurs, contrary
to the claim (and to the clear intent of the check in the source). -/
theorem c4_missing_targetPath_accepted :
    fromObj ["C:\\data"] "C:\\app"
        ⟨some [some ⟨some ["C:\\data"], none, none⟩]⟩
      = .ok ⟨[⟨true, ["C:\\data"], "C:\\app\\None", []⟩]⟩ := by
  rfl

theorem findFile_setFileL_self (files : List (String × FileData)) (p : String)
    (d : FileData) : findFile (setFileL files p d) p = some d := by
  simp [setFileL, findFile]

theorem findFile_cons (e : String × FileData) (rest : List (String × FileData))
    (q : String) :
    findFile (e :: rest) q = if e.1 = q then some e.2 else findFile rest q := rfl

theorem removeFileL_cons_of_eq (e : String × FileData) (rest : List (String × FileData))
    (p : String) (he : e.1 = p) :
    removeFileL (e :: rest) p = removeFileL rest p := by
  simp [removeFileL, List.filter_cons, he]

theorem removeFileL_cons_of_ne (e : String × FileData) (rest : List (String × FileData))
    (p : String) (he : e.1 ≠ p) :
    removeFileL (e :: rest) p = e :: removeFileL rest p := by
  simp [removeFileL, List.filter_cons, he]

theorem findFile_removeFileL_ne (files : List (String × FileData)) (p q : String)
    (h : q ≠ p) : findFile (removeFileL files p) q = findFile files q := by
  induction files with
  | nil => rfl
  | cons e rest ih =>
    by_cases he : e.1 = p
    · have hqe : e.1 ≠ q := by
        rw [he]
        exact fun hc => h hc.symm
      rw [removeFileL_cons_of_eq e rest p he, findFile_cons, if_neg hqe]
      exact ih
    · rw [removeFileL_cons_of_ne e rest p he, findFile_cons, findFile_cons]
      by_cases hq : e.1 = q
      · rw [if_pos hq, if_pos hq]
      · rw [if_neg hq, if_neg hq]
        exact ih

theorem findFile_removeFileL_self (files : List (String × FileData)) (p : String) :
    findFile (removeFileL files p) p = none := by
  induction files with
  | nil => rfl
  | cons e rest ih =>
    by_cases he : e.1 = p
    · rw [removeFileL_cons_of_eq e rest p he]
      exact ih
    · rw [removeFileL_cons_of_ne e rest p he, findFile_cons, if_neg he]
      exact ih

theorem findFile_setFileL_ne (files : List (String × FileData)) (p q : String)
    (d : FileData) (h : q ≠ p) :
    findFile (setFileL files p d) q = findFile files q := by
  simp only [setFileL, findFile]
  rw [if_neg (fun hc => h hc.symm)]
  exact findFile_removeFileL_ne files p q h

theorem fsExists_mkdir (fs : FState) (d p : String) (h : fsExists fs p = true) :
    fsExists { fs with dirs := d :: fs.dirs } p = true := by
  unfold fsExists fsIsFile fsIsDir at h ⊢
  rcases Bool.or_eq_true_iff.mp h with h1 | h1
  · exact Bool.or_eq_true_iff.mpr (Or.inl h1)
  · refine Bool.or_eq_true_iff.mpr (Or.inr ?_)
    rw [List.contains_cons, h1, Bool.or_true]

theorem fsExists_mkdir_self (fs : FState) (d : String) :
    fsExists { fs with dirs := d :: fs.dirs } d = true := by
  unfold fsExists fsIsDir
  rw [List.contains_cons]
  simp

/-- Successful runs of `ensureParentFolderExists` only add directories:
files and oracles are untouched, existing paths persist, and afterwards
the direct parent of `dst` exists. -/
theorem ensureParent_some_spec (fuel : Nat) :
    ∀ (fs : FState) (dst : String) (fs2 : FState),
      ensureParentFolderExists fuel fs dst = some fs2 →
      fs2.files = fs.files ∧ fs2.failCopy = fs.failCopy ∧ fs2.permLocked = fs.permLocked
      ∧ (∀ p, fsExists fs p = true → fsExists fs2 p = true)
      ∧ fsExists fs2 (splitDir dst) = true := by
  induction fuel with
  | zero =>
    intro fs dst fs2 h
    simp only [ensureParentFolderExists] at h
    by_cases hex : fsExists fs (splitDir dst) = true
    · rw [if_pos hex] at h
      obtain rfl : fs = fs2 := Option.some.inj h
      exact ⟨rfl, rfl, rfl, fun p hp => hp, hex⟩
    · rw [if_neg hex] at h
      cases h
  | succ f ih =>
    intro fs dst fs2 h
    simp only [ensureParentFolderExists] at h
    by_cases hex : fsExists fs (splitDir dst) = true
    · rw [if_pos hex] at h
      obtain rfl : fs = fs2 := Option.some.inj h
      exact ⟨rfl, rfl, rfl, fun p hp => hp, hex⟩
    · rw [if_neg hex] at h
      cases hrec : ensureParentFolderExists f fs (splitDir dst) with
      | none =>
        rw [hrec] at h
        cases h
      | some fs3 =>
        rw [hrec] at h
        have hsome : some ({ fs3 with dirs := splitDir dst :: fs3.dirs } : FState)
            = some fs2 := h
        obtain rfl := Option.some.inj hsome
        obtain ⟨h1, h2, h3, hmono, _⟩ := ih fs (splitDir dst) fs3 hrec
        exact ⟨h1, h2, h3,
          fun p hp => fsExists_mkdir fs3 (splitDir dst) p (hmono p hp),
          fsExists_mkdir_self fs3 (splitDir dst)⟩

theorem findFile_isSome_mem (files : List (String × FileData)) (p : String)
    (h : (findFile files p).isSome = true) :
    p ∈ files.map (fun e => e.1) := by
  induction files with
  | nil => cases h
  | cons e rest ih =>
    rw [findFile_cons] at h
    by_cases he : e.1 = p
    · exact List.mem_map.mpr ⟨e, List.mem_cons_self e rest, he⟩
    · rw [if_neg he] at h
      exact List.mem_cons_of_mem _ (ih h)

theorem fsClosed_step (fs : FState) (hcl : fsClosed fs) (p : String)
    (h : fsExists fs p = true) : fsExists fs (splitDir p) = true := by
  apply hcl
  rw [List.mem_append]
  unfold fsExists fsIsFile fsIsDir at h
  rcases Bool.or_eq_true_iff.mp h with h1 | h1
  · exact Or.inr (findFile_isSome_mem fs.files p h1)
  · exact Or.inl (List.elem_iff.mp h1)

theorem fsClosed_iterate (fs : FState) (hcl : fsClosed fs) (p : String)
    (h : fsExists fs p = true) :
    ∀ i, fsExists fs (splitDir^[i] p) = true := by
  intro i
  induction i with
  | zero => simpa using h
  | succ i ih =>
    rw [Function.iterate_succ_apply']
    exact fsClosed_step fs hcl _ ih

/-- With fuel at least the depth of the first existing ancestor, the
recursion terminates. -/
theorem ensureParent_terminates (k : Nat) :
    ∀ (fs : FState) (dst : String),
      fsExists fs (splitDir^[k + 1] dst) = true →
      ∃ fs2, ensureParentFolderExists k fs dst = some fs2 := by
  induction k with
  | zero =>
    intro fs dst h
    rw [Nat.zero_add, Function.iterate_one] at h
    refine ⟨fs, ?_⟩
    simp only [ensureParentFolderExists]
    rw [if_pos h]
  | succ f ih =>
    intro fs dst h
    by_cases hex : fsExists fs (splitDir dst) = true
    · refine ⟨fs, ?_⟩
      simp only [ensureParentFolderExists]
      rw [if_pos hex]
    · have h2 : fsExists fs (splitDir^[f + 1] (splitDir dst)) = true := by
        rw [← Function.iterate_succ_apply]
        exact h
      obtain ⟨fs3, hfs3⟩ := ih fs (splitDir dst) h2
      refine ⟨{ fs3 with dirs := splitDir dst :: fs3.dirs }, ?_⟩
      simp only [ensureParentFolderExists]
      rw [if_neg hex, hfs3]
      rfl

/-- On a parent-closed state, a successful run leaves every proper
ancestor of `dst` existing. -/
theorem ensureParent_ancestors (fuel : Nat) :
    ∀ (fs : FState) (dst : String) (fs2 : FState), fsClosed fs →
      ensureParentFolderExists fuel fs dst = some fs2 →
      ∀ j, 1 ≤ j → fsExists fs2 (splitDir^[j] dst) = true := by
  induction fuel with
  | zero =>
    intro fs dst fs2 hcl h j hj
    simp only [ensureParentFolderExists] at h
    by_cases hex : fsExists fs (splitDir dst) = true
    · rw [if_pos hex] at h
      obtain rfl : fs = fs2 := Option.some.inj h
      obtain ⟨i, rfl⟩ := Nat.exists_eq_add_of_le hj
      rw [Nat.add_comm, Function.iterate_add_apply, Function.iterate_one]
      exact fsClosed_iterate fs hcl (splitDir dst) hex i
    · rw [if_neg hex] at h
      cases h
  | succ f ih =>
    intro fs dst fs2 hcl h j hj
    simp only [ensureParentFolderExists] at h
    by_cases hex : fsExists fs (splitDir dst) = true
    · rw [if_pos hex] at h
      obtain rfl : fs = fs2 := Option.some.inj h
      obtain ⟨i, rfl⟩ := Nat.exists_eq_add_of_le hj
      rw [Nat.add_comm, Function.iterate_add_apply, Function.iterate_one]
      exact fsClosed_iterate fs hcl (splitDir dst) hex i
    · rw [if_neg hex] at h
      cases hrec : ensureParentFolderExists f fs (splitDir dst) with
      | none =>
        rw [hrec] at h
        cases h
      | some fs3 =>
        rw [hrec] at h
        have hsome : some ({ fs3 with dirs := splitDir dst :: fs3.dirs } : FState)
            = some fs2 := h
        obtain rfl := Option.some.inj hsome
        obtain ⟨i, rfl⟩ := Nat.exists_eq_add_of_le hj
        cases i with
        | zero => exact fsExists_mkdir_self fs3 (splitDir dst)
        | succ i =>
          have hstep : splitDir^[1 + (i + 1)] dst = splitDir^[i + 1] (splitDir dst) := by
            rw [Nat.add_comm, Function.iterate_add_apply, Function.iterate_one]
          rw [hstep]
          exact fsExists_mkdir fs3 (splitDir dst) _
            (ih fs (splitDir dst) fs3 hcl hrec (i + 1) (Nat.succ_le_succ (Nat.zero_le i)))

theorem dropWhile_sepFree (l : List Char) :
    ∀ (m : List Char), (∀ x ∈ m, x ≠ '\\') →
      (m ++ '\\' :: l).dropWhile (fun c => c ≠ '\\') = '\\' :: l := by
  intro m
  induction m with
  | nil =>
    intro _
    simp [List.dropWhile_cons]
  | cons x m ih =>
    intro h
    have hx : x ≠ '\\' := h x (List.mem_cons_self x m)
    simp only [List.cons_append, List.dropWhile_cons]
    rw [if_pos (by simpa using hx)]
    exact ih (fun y hy => h y (List.mem_cons_of_mem x hy))

/-- Splitting a drive root is the identity: `os.path.split("C:\\")`
returns `("C:\\", "")`, so the recursion argument of
`ensureParentFolderExists` stops decreasing there. -/
theorem splitDir_root (c : Char) :
    splitDir (String.mk [c, ':', '\\']) = String.mk [c, ':', '\\'] := by
  rfl

/-- The directory part of a path sitting directly on a drive root is the
root itself. -/
theorem splitDir_rootChild (c : Char) (tail : List Char)
    (h : ∀ x ∈ tail, x ≠ '\\') :
    splitDir (String.mk (c :: ':' :: '\\' :: tail)) = String.mk [c, ':', '\\'] := by
  unfold splitDir
  simp only [splitDriveChars]
  unfold takeToLastSep
  rw [List.reverse_cons]
  rw [dropWhile_sepFree [] tail.reverse (fun x hx => h x (List.mem_reverse.mp hx))]
  rfl

/-- At a missing drive root the recursion never terminates: every fuel
value is exhausted. -/
theorem ensureParent_root_none (c : Char) (fs : FState)
    (h : fsExists fs (String.mk [c, ':', '\\']) = false) :
    ∀ fuel, ensureParentFolderExists fuel fs (String.mk [c, ':', '\\']) = none := by
  have hne : ¬fsExists fs (String.mk [c, ':', '\\']) = true := by
    rw [h]
    exact Bool.false_ne_true
  intro fuel
  induction fuel with
  | zero =>
    simp only [ensureParentFolderExists, splitDir_root]
    rw [if_neg hne]
  | succ f ih =>
    simp only [ensureParentFolderExists, splitDir_root]
    rw [if_neg hne, ih]
    rfl

/-- C9: `ensureParentFolderExists` terminates and creates every missing
proper ancestor of `dst` whenever some ancestor of `dst` already exists
in a parent-closed filesystem (fuel equal to that ancestor's depth
suffices, existing paths are preserved); splitting a drive root yields
the root itself, so on a missing drive root the recursion argument stops
decreasing and no amount of fuel terminates the recursion. -/
theorem c9_ensure_parent :
    (∀ (fs : FState) (dst : String) (k : Nat), fsClosed fs →
        fsExists fs (splitDir^[k + 1] dst) = true →
        ∃ fs2, ensureParentFolderExists k fs dst = some fs2
          ∧ (∀ p, fsExists fs p = true → fsExists fs2 p = true)
          ∧ (∀ j, 1 ≤ j → fsExists fs2 (splitDir^[j] dst) = true))
    ∧ (∀ c : Char, splitDir (String.mk [c, ':', '\\']) = String.mk [c, ':', '\\'])
    ∧ (∀ (c : Char) (tail : List Char) (fs : FState) (fuel : Nat),
        fsExists fs (String.mk [c, ':', '\\']) = false →
        (∀ x ∈ tail, x ≠ '\\') →
        ensureParentFolderExists fuel fs (String.mk (c :: ':' :: '\\' :: tail)) = none) := by
  refine ⟨?_, splitDir_root, ?_⟩
  · intro fs dst k hcl hex
    obtain ⟨fs2, hfs2⟩ := ensureParent_terminates k fs dst hex
    obtain ⟨_, _, _, hmono, _⟩ := ensureParent_some_spec k fs dst fs2 hfs2
    exact ⟨fs2, hfs2, hmono, ensureParent_ancestors k fs dst fs2 hcl hfs2⟩
  · intro c tail fs fuel hroot htail
    have hne : ¬fsExists fs (String.mk [c, ':', '\\']) = true := by
      rw [hroot]
      exact Bool.false_ne_true
    cases fuel with
    | zero =>
      simp only [ensureParentFolderExists, splitDir_rootChild c tail htail]
      rw [if_neg hne]
    | succ f =>
      simp only [ensureParentFolderExists, splitDir_rootChild c tail htail]
      rw [if_neg hne, ensureParent_root_none c fs hroot f]
      rfl

/-- C9 witness: with `C:\` and `C:\a` existing, fuel 1 creates the
missing ancestors of `C:\a\b\c`; splitting `C:\` is the identity; and on
the absent drive `D:` no fuel suffices. -/
theorem c9_ensure_parent_witness :
    (∃ fs2, ensureParentFolderExists 1 ⟨[], ["C:\\", "C:\\a"], [], []⟩ "C:\\a\\b\\c" = some fs2
        ∧ (∀ p, fsExists ⟨[], ["C:\\", "C:\\a"], [], []⟩ p = true → fsExists fs2 p = true)
        ∧ (∀ j, 1 ≤ j → fsExists fs2 (splitDir^[j] "C:\\a\\b\\c") = true))
    ∧ splitDir (String.mk ['C', ':', '\\']) = String.mk ['C', ':', '\\']
    ∧ ensureParentFolderExists 5 ⟨[], ["C:\\", "C:\\a"], [], []⟩
        (String.mk ['D', ':', '\\', 'x']) = none := by
  refine ⟨?_, c9_ensure_parent.2.1 'C', ?_⟩
  · exact c9_ensure_parent.1 ⟨[], ["C:\\", "C:\\a"], [], []⟩ "C:\\a\\b\\c" 1
      (by decide) (by decide)
  · exact c9_ensure_parent.2.2 'D' ['x'] ⟨[], ["C:\\", "C:\\a"], [], []⟩ 5
      (by decide) (by decide)

/-- When the parent already exists, `ensureParentFolderExists` is the
identity whatever the fuel. -/
theorem ensureParent_of_parent_exists (fuel : Nat) (fs : FState) (dst : String)
    (h : fsExists fs (splitDir dst) = true) :
    ensureParentFolderExists fuel fs dst = some fs := by
  cases fuel with
  | zero =>
    simp only [ensureParentFolderExists]
    rw [if_pos h]
  | succ f =>
    simp only [ensureParentFolderExists]
    rw [if_pos h]

/-- C7 (counterexample): destination bytes differ from the source
(`cd` vs `ab`) but size and mtime coincide, so shallow `filecmp.cmp`
reports equality and `tryCopy2` *skips* — the destination keeps its
differing content, contradicting the claim's delete-then-copy for a
byte-differing destination. -/
theorem c7_shallow_cmp_skips :
    tryCopy2 1
        ⟨[("C:\\s\\f", ⟨"ab", 5⟩), ("D:\\t\\f", ⟨"cd", 5⟩)], ["C:\\s", "D:\\t"], [], []⟩
        "C:\\s\\f" "D:\\t\\f"
      = some (⟨[("C:\\s\\f", ⟨"ab", 5⟩), ("D:\\t\\f", ⟨"cd", 5⟩)], ["C:\\s", "D:\\t"], [], []⟩, [])
    ∧ (FileData.mk "cd" 5).content ≠ (FileData.mk "ab" 5).content := by
  constructor
  · rfl
  · decide

/-- C7 (amended): per file, `tryCopy2` skips exactly when the existing
destination compares equal under shallow `filecmp.cmp` (equal stat
signature — size and mtime — or equal bytes); when the comparison fails
it deletes the destination and recopies; when the destination does not
exist it copies after `ensureParentFolderExists` has created the missing
parent directories (existing paths being preserved). -/
theorem c7_tryCopy2_cases (fuel : Nat) (fs : FState) (src dst : String) (ds : FileData)
    (hsrc : findFile fs.files src = some ds)
    (hnc : fs.failCopy.contains src = false)
    (hnl : fs.permLocked.contains dst = false) :
    (∀ dd, findFile fs.files dst = some dd → cmpShallow ds dd = true →
        tryCopy2 fuel fs src dst = some (fs, []))
    ∧ (∀ dd, findFile fs.files dst = some dd → cmpShallow ds dd = false →
        src ≠ dst →
        fsExists { fs with files := removeFileL fs.files dst } (splitDir dst) = true →
        tryCopy2 fuel fs src dst
          = some ({ fs with files := setFileL (removeFileL fs.files dst) dst ds },
              [Note.message ("Copied " ++ src ++ " to " ++ dst)]))
    ∧ (fsExists fs dst = false →
        ∀ fs1, ensureParentFolderExists fuel fs dst = some fs1 →
        tryCopy2 fuel fs src dst
          = some ({ fs1 with files := setFileL fs1.files dst ds },
              [Note.message ("Copied " ++ src ++ " to " ++ dst)])
          ∧ (∀ p, fsExists fs p = true → fsExists fs1 p = true)
          ∧ fsExists fs1 (splitDir dst) = true) := by
  have hnl2 : dst ∉ fs.permLocked := by simpa using hnl
  have hnc2 : src ∉ fs.failCopy := by simpa using hnc
  refine ⟨?_, ?_, ?_⟩
  · intro dd hdd hcmp
    have hex : fsExists fs dst = true := by
      unfold fsExists fsIsFile
      rw [hdd]
      rfl
    simp [tryCopy2, tryCopy2Body, cmpF, hsrc, hdd, hex, hcmp]
  · intro dd hdd hcmp hne hpar
    have hex : fsExists fs dst = true := by
      unfold fsExists fsIsFile
      rw [hdd]
      rfl
    have hens := ensureParent_of_parent_exists fuel
      { fs with files := removeFileL fs.files dst } dst hpar
    have hsrc2 : findFile (removeFileL fs.files dst) src = some ds := by
      rw [findFile_removeFileL_ne fs.files dst src hne]
      exact hsrc
    simp [tryCopy2, tryCopy2Body, cmpF, osRemove, CopyMethod, copy2F,
      hsrc, hdd, hex, hcmp, hnl2, hnc2, hens, hsrc2]
  · intro hnex fs1 hens
    obtain ⟨hfiles, hfail, hperm, hmono, hpar⟩ :=
      ensureParent_some_spec fuel fs dst fs1 hens
    refine ⟨?_, hmono, hpar⟩
    simp [tryCopy2, tryCopy2Body, CopyMethod, copy2F,
      hnex, hens, hfiles, hfail, hperm, hsrc, hnc2, hnl2]

/-- C7 witness: the three cases at concrete states — identical
destination skipped, byte-and-signature-differing destination replaced,
missing destination copied with parents created. -/
theorem c7_tryCopy2_cases_witness :
    tryCopy2 0 ⟨[("C:\\s\\f", ⟨"ab", 5⟩), ("D:\\t\\f", ⟨"ab", 5⟩)], ["C:\\s", "D:\\t"], [], []⟩
        "C:\\s\\f" "D:\\t\\f"
      = some (⟨[("C:\\s\\f", ⟨"ab", 5⟩), ("D:\\t\\f", ⟨"ab", 5⟩)], ["C:\\s", "D:\\t"], [], []⟩, [])
    ∧ tryCopy2 0 ⟨[("C:\\s\\f", ⟨"ab", 5⟩), ("D:\\t\\f", ⟨"xyz", 9⟩)], ["C:\\s", "D:\\t"], [], []⟩
        "C:\\s\\f" "D:\\t\\f"
      = some (⟨[("D:\\t\\f", ⟨"ab", 5⟩), ("C:\\s\\f", ⟨"ab", 5⟩)], ["C:\\s", "D:\\t"], [], []⟩,
          [Note.message ("Copied C:\\s\\f to D:\\t\\f")])
    ∧ tryCopy2 0 ⟨[("C:\\s\\f", ⟨"ab", 5⟩)], ["C:\\s", "D:\\t"], [], []⟩
        "C:\\s\\f" "D:\\t\\f"
      = some (⟨[("D:\\t\\f", ⟨"ab", 5⟩), ("C:\\s\\f", ⟨"ab", 5⟩)], ["C:\\s", "D:\\t"], [], []⟩,
          [Note.message ("Copied C:\\s\\f to D:\\t\\f")]) := by
  refine ⟨?_, ?_, ?_⟩
  · exact (c7_tryCopy2_cases 0
      ⟨[("C:\\s\\f", ⟨"ab", 5⟩), ("D:\\t\\f", ⟨"ab", 5⟩)], ["C:\\s", "D:\\t"], [], []⟩
      "C:\\s\\f" "D:\\t\\f" ⟨"ab", 5⟩ (by decide) (by decide) (by decide)).1
      ⟨"ab", 5⟩ (by decide) (by decide)
  · have h := (c7_tryCopy2_cases 0
      ⟨[("C:\\s\\f", ⟨"ab", 5⟩), ("D:\\t\\f", ⟨"xyz", 9⟩)], ["C:\\s", "D:\\t"], [], []⟩
      "C:\\s\\f" "D:\\t\\f" ⟨"ab", 5⟩ (by decide) (by decide) (by decide)).2.1
      ⟨"xyz", 9⟩ (by decide) (by decide) (by decide) (by decide)
    exact h
  · have h := ((c7_tryCopy2_cases 0
      ⟨[("C:\\s\\f", ⟨"ab", 5⟩)], ["C:\\s", "D:\\t"], [], []⟩
      "C:\\s\\f" "D:\\t\\f" ⟨"ab", 5⟩ (by decide) (by decide) (by decide)).2.2
      (by decide) ⟨[("C:\\s\\f", ⟨"ab", 5⟩)], ["C:\\s", "D:\\t"], [], []⟩ (by decide)).1
    exact h

/-- Every value produced by the `try` body of `tryCopy2` is either a
success with no note or one `Copied` message, or an error carrying no
notes. -/
theorem tryCopy2Body_shape (fuel : Nat) (fs : FState) (src dst : String)
    (b : Except (PyErr × FState × List Note) (FState × List Note))
    (h : tryCopy2Body fuel fs src dst = some b) :
    (∃ fs2, b = .ok (fs2, []))
    ∨ (∃ fs2 m, b = .ok (fs2, [Note.message m]))
    ∨ (∃ e fs1, b = .error (e, fs1, [])) := by
  unfold tryCopy2Body at h
  split at h
  · split at h
    · exact Or.inr (Or.inr ⟨_, _, (Option.some.inj h).symm⟩)
    · exact Or.inl ⟨_, (Option.some.inj h).symm⟩
    · split at h
      · exact Or.inr (Or.inr ⟨_, _, (Option.some.inj h).symm⟩)
      · rcases Option.map_eq_some'.mp h with ⟨cm, hcm, hgb⟩
        cases cm with
        | error e => exact Or.inr (Or.inr ⟨e, _, hgb.symm⟩)
        | ok out => exact Or.inr (Or.inl ⟨out.1, _, hgb.symm⟩)
  · rcases Option.map_eq_some'.mp h with ⟨cm, hcm, hgb⟩
    cases cm with
    | error e => exact Or.inr (Or.inr ⟨e, _, hgb.symm⟩)
    | ok out => exact Or.inr (Or.inl ⟨out.1, _, hgb.symm⟩)

/-- C5 (counterexample): a locked source file (`shutil.copy2` raises
`OSError`) during the initial-sync walk is *not* surfaced: `tryCopy2`
completes normally, the state is unchanged, and the only effect is a
non-fatal `Unable to copy` warning. -/
theorem c5_copy_failure_not_surfaced :
    tryCopy2 1
        ⟨[("C:\\s\\f", ⟨"ab", 5⟩)], ["C:\\s", "D:\\t"], ["C:\\s\\f"], []⟩
        "C:\\s\\f" "D:\\t\\f"
      = some (⟨[("C:\\s\\f", ⟨"ab", 5⟩)], ["C:\\s", "D:\\t"], ["C:\\s\\f"], []⟩,
          [Note.warning COPY_FILES_CAT ("cannot copy C:\\s\\f")]) := by
  rfl

/-- C5 (amended): an I/O failure of an individual file copy inside the
tree walk is caught by `tryCopy2` and reported as a non-fatal warning:
the call always completes, nothing is enqueued into the Retry Queue and
no error event is emitted; in the failing-copy case the state is
unchanged and exactly one `Unable to copy` warning is produced, so the
walk continues with the next file. -/
theorem c5_tryCopy2_never_enqueues :
    (∀ (fuel : Nat) (fs : FState) (src dst : String) (r : FState × List Note),
        tryCopy2 fuel fs src dst = some r →
        (∀ m, Note.enqueued m ∉ r.2) ∧ (∀ c m, Note.errorEvent c m ∉ r.2))
    ∧ (∀ (fuel : Nat) (fs : FState) (src dst : String) (ds : FileData),
        findFile fs.files src = some ds →
        fs.failCopy.contains src = true →
        fsExists fs dst = false →
        fsExists fs (splitDir dst) = true →
        tryCopy2 fuel fs src dst
          = some (fs, [Note.warning COPY_FILES_CAT ("cannot copy " ++ src)])) := by
  constructor
  · intro fuel fs src dst r h
    unfold tryCopy2 at h
    cases hb : tryCopy2Body fuel fs src dst with
    | none =>
      rw [hb] at h
      cases h
    | some b =>
      rw [hb] at h
      rcases tryCopy2Body_shape fuel fs src dst b hb with ⟨fs2, rfl⟩ | ⟨fs2, m, rfl⟩ | ⟨e, fs1, rfl⟩
      · obtain rfl : (fs2, ([] : List Note)) = r := Option.some.inj h
        refine ⟨fun m hm => ?_, fun c m hm => ?_⟩ <;> cases hm
      · obtain rfl : (fs2, [Note.message m]) = r := Option.some.inj h
        constructor
        · intro m2 hm
          rcases List.mem_singleton.mp hm with h2
          cases h2
        · intro c m2 hm
          rcases List.mem_singleton.mp hm with h2
          cases h2
      · have hr : (fs1, [Note.warning COPY_FILES_CAT (errText e)]) = r := Option.some.inj h
        rw [← hr]
        constructor
        · intro m2 hm
          rcases List.mem_singleton.mp hm with h2
          cases h2
        · intro c m2 hm
          rcases List.mem_singleton.mp hm with h2
          cases h2
  · intro fuel fs src dst ds hsrc hfail hnex hpar
    have hm : src ∈ fs.failCopy := by simpa using hfail
    have hens := ensureParent_of_parent_exists fuel fs dst hpar
    simp [tryCopy2, tryCopy2Body, CopyMethod, copy2F, errText, hnex, hens, hsrc, hm]

/-- C5 witness: the never-enqueues part applied to a successful concrete
copy, and the warning part applied to a locked concrete source. -/
theorem c5_tryCopy2_never_enqueues_witness :
    ((∀ m, Note.enqueued m ∉ [Note.warning COPY_FILES_CAT ("cannot copy C:\\s\\f")])
      ∧ (∀ c m, Note.errorEvent c m ∉ [Note.warning COPY_FILES_CAT ("cannot copy C:\\s\\f")]))
    ∧ tryCopy2 3 ⟨[("C:\\s\\f", ⟨"ab", 5⟩)], ["C:\\s", "D:\\t"], ["C:\\s\\f"], []⟩
        "C:\\s\\f" "D:\\t\\f"
      = some (⟨[("C:\\s\\f", ⟨"ab", 5⟩)], ["C:\\s", "D:\\t"], ["C:\\s\\f"], []⟩,
          [Note.warning COPY_FILES_CAT ("cannot copy C:\\s\\f")]) := by
  have h2 := c5_tryCopy2_never_enqueues.2 3
    ⟨[("C:\\s\\f", ⟨"ab", 5⟩)], ["C:\\s", "D:\\t"], ["C:\\s\\f"], []⟩
    "C:\\s\\f" "D:\\t\\f" ⟨"ab", 5⟩ (by decide) (by decide) (by decide) (by decide)
  have h1 := c5_tryCopy2_never_enqueues.1 3
    ⟨[("C:\\s\\f", ⟨"ab", 5⟩)], ["C:\\s", "D:\\t"], ["C:\\s\\f"], []⟩
    "C:\\s\\f" "D:\\t\\f" _ h2
  exact ⟨h1, h2⟩

/-- C10: a deleted event whose mapped destination is missing from the
target is not a silent no-op — `rmtree` raises the not-found `OSError`,
the `except OSError` arm reports it as an error event under the monitor
category, and the operation is dropped: nothing is enqueued and the
state is unchanged. -/
theorem c10_on_deleted_missing_destination (w : Watcher) (fs : FState) (srcPath : String)
    (hig : shouldIgnore w srcPath = false)
    (hnf : fsIsFile fs (destinationPath w srcPath) = false)
    (hnd : fsIsDir fs (destinationPath w srcPath) = false) :
    on_deleted w fs srcPath
      = (fs, [Note.errorEvent MONITOR_CAT ("cannot find " ++ destinationPath w srcPath)]) := by
  simp [on_deleted, deleteF, rmtree, hig, hnf, hnd]

/-- C10 witness: a concrete watcher and state with the mapped
destination absent. -/
theorem c10_on_deleted_missing_destination_witness :
    on_deleted ⟨"C:\\data", "E:\\backup", "data", []⟩
        ⟨[], ["C:\\data"], [], []⟩ "C:\\data\\gone.txt"
      = (⟨[], ["C:\\data"], [], []⟩,
          [Note.errorEvent MONITOR_CAT ("cannot find E:\\backup\\data\\gone.txt")]) := by
  have h := c10_on_deleted_missing_destination ⟨"C:\\data", "E:\\backup", "data", []⟩
    ⟨[], ["C:\\data"], [], []⟩ "C:\\data\\gone.txt" (by decide) (by decide) (by decide)
  simpa using h

/-- C8: for a non-ignored moved event with both paths under the watched
root, the handler is a no-op whenever the last path component did not
change; when it acts (names differ and the old mapped destination
exists), it first deletes any existing target at the new mapped path and
then renames the old mapped path to the new one — the moved file's data
ends up at the new mapped path, the old mapped path is gone, and the
emitted messages show the deletion happening before the rename. -/
theorem c8_on_moved (w : Watcher) (fs : FState) (srcPath destPath : String)
    (hsr : startswith srcPath w.sourcePath = true)
    (hdr : startswith destPath w.sourcePath = true) :
    (nameIsDifferent srcPath destPath = false → on_moved w fs srcPath destPath = (fs, []))
    ∧ (∀ d, shouldIgnore w srcPath = false →
        nameIsDifferent srcPath destPath = true →
        findFile fs.files (destinationPath w srcPath) = some d →
        destinationPath w srcPath ≠ destinationPath w destPath →
        fs.permLocked.contains (destinationPath w srcPath) = false →
        fs.permLocked.contains (destinationPath w destPath) = false →
        fsIsDir fs (destinationPath w destPath) = false →
        ((fsIsFile fs (destinationPath w destPath) = false →
            on_moved w fs srcPath destPath
              = (⟨setFileL (removeFileL fs.files (destinationPath w srcPath))
                    (destinationPath w destPath) d,
                  fs.dirs, fs.failCopy, fs.permLocked⟩,
                  [Note.message (destinationPath w srcPath ++ " has been moved to "
                    ++ destinationPath w destPath ++ "!")]))
          ∧ (∀ dd, findFile fs.files (destinationPath w destPath) = some dd →
              on_moved w fs srcPath destPath
                = (⟨setFileL (removeFileL (removeFileL fs.files
                      (destinationPath w destPath)) (destinationPath w srcPath))
                      (destinationPath w destPath) d,
                    fs.dirs, fs.failCopy, fs.permLocked⟩,
                    [Note.message (destinationPath w destPath ++ " has been deleted!"),
                      Note.message (destinationPath w srcPath ++ " has been moved to "
                        ++ destinationPath w destPath ++ "!")])))) := by
  constructor
  · intro hno
    simp [on_moved, hno]
  · intro d hig hname hsrc hne hl1 hl2 hndir
    have hl1m : destinationPath w srcPath ∉ fs.permLocked := by simpa using hl1
    have hl2m : destinationPath w destPath ∉ fs.permLocked := by simpa using hl2
    have hexS : fsExists fs (destinationPath w srcPath) = true := by
      unfold fsExists fsIsFile
      rw [hsrc]
      rfl
    constructor
    · intro hnf
      have hnexD : fsExists fs (destinationPath w destPath) = false := by
        unfold fsExists
        rw [hnf, hndir]
        rfl
      simp [on_moved, renameF, osRename, hig, hname, hexS, hnexD, hsrc, hl1m, hl2m]
    · intro dd hdd
      have hfD : fsIsFile fs (destinationPath w destPath) = true := by
        unfold fsIsFile
        rw [hdd]
        rfl
      have hexD : fsExists fs (destinationPath w destPath) = true := by
        unfold fsExists
        rw [hfD]
        rfl
      have hrm1 : findFile (removeFileL fs.files (destinationPath w destPath))
          (destinationPath w destPath) = none :=
        findFile_removeFileL_self fs.files (destinationPath w destPath)
      have hrm2 : findFile (removeFileL fs.files (destinationPath w destPath))
          (destinationPath w srcPath) = some d := by
        rw [findFile_removeFileL_ne fs.files (destinationPath w destPath)
          (destinationPath w srcPath) hne]
        exact hsrc
      have hndirm : destinationPath w destPath ∉ fs.dirs := by
        simpa [fsIsDir] using hndir
      simp [on_moved, renameF, deleteF, osRemove, osRename, fsExists, fsIsFile, fsIsDir,
        hig, hname, hexS, hexD, hsrc, hdd, hfD, hndir, hndirm, hl1m, hl2m, hrm1, hrm2]

/-- C8 witness: a same-name relocation is a no-op, and an acted-upon
rename with an existing stale target deletes it and then renames. -/
theorem c8_on_moved_witness :
    on_moved ⟨"C:\\data", "E:\\backup", "data", []⟩
        ⟨[("E:\\backup\\data\\a\\f.txt", ⟨"ab", 1⟩)], ["E:\\backup\\data"], [], []⟩
        "C:\\data\\a\\f.txt" "C:\\data\\b\\f.txt"
      = (⟨[("E:\\backup\\data\\a\\f.txt", ⟨"ab", 1⟩)], ["E:\\backup\\data"], [], []⟩, [])
    ∧ on_moved ⟨"C:\\data", "E:\\backup", "data", []⟩
        ⟨[("E:\\backup\\data\\f.txt", ⟨"ab", 1⟩), ("E:\\backup\\data\\g.txt", ⟨"zz", 2⟩)],
          ["E:\\backup\\data"], [], []⟩
        "C:\\data\\f.txt" "C:\\data\\g.txt"
      = (⟨[("E:\\backup\\data\\g.txt", ⟨"ab", 1⟩)], ["E:\\backup\\data"], [], []⟩,
          [Note.message ("E:\\backup\\data\\g.txt has been deleted!"),
            Note.message ("E:\\backup\\data\\f.txt has been moved to E:\\backup\\data\\g.txt!")]) := by
  constructor
  · exact (c8_on_moved ⟨"C:\\data", "E:\\backup", "data", []⟩
      ⟨[("E:\\backup\\data\\a\\f.txt", ⟨"ab", 1⟩)], ["E:\\backup\\data"], [], []⟩
      "C:\\data\\a\\f.txt" "C:\\data\\b\\f.txt" (by decide) (by decide)).1 (by decide)
  · have h := ((c8_on_moved ⟨"C:\\data", "E:\\backup", "data", []⟩
      ⟨[("E:\\backup\\data\\f.txt", ⟨"ab", 1⟩), ("E:\\backup\\data\\g.txt", ⟨"zz", 2⟩)],
        ["E:\\backup\\data"], [], []⟩
      "C:\\data\\f.txt" "C:\\data\\g.txt" (by decide) (by decide)).2
      ⟨"ab", 1⟩ (by decide) (by decide) (by decide) (by decide) (by decide) (by decide)
      (by decide)).2 ⟨"zz", 2⟩ (by decide)
    simpa using h

mutual
/-- Every component of a copied relative path is fnmatch-matched by no
pattern: the name filter applies at each directory level. -/
theorem copyEntry_no_pattern (pats : List String) :
    ∀ (e : Entry), ∀ p ∈ copyEntry pats e, ∀ c ∈ p,
      pats.any (fun pat => fnmatchB c pat) = false
  | .file n => by
    intro p hp c hc
    by_cases h : pats.any (fun pat => fnmatchB n pat) = true
    · simp only [copyEntry] at hp
      rw [if_pos h] at hp
      exact absurd hp (List.not_mem_nil _)
    · simp only [copyEntry] at hp
      rw [if_neg h] at hp
      rcases List.mem_singleton.mp hp with rfl
      rcases List.mem_singleton.mp hc with rfl
      exact Bool.eq_false_iff.mpr h
  | .dir n cs => by
    intro p hp c hc
    by_cases h : pats.any (fun pat => fnmatchB n pat) = true
    · simp only [copyEntry] at hp
      rw [if_pos h] at hp
      exact absurd hp (List.not_mem_nil _)
    · simp only [copyEntry] at hp
      rw [if_neg h] at hp
      rcases List.mem_map.mp hp with ⟨q, hq, rfl⟩
      rcases List.mem_cons.mp hc with rfl | hcq
      · exact Bool.eq_false_iff.mpr h
      · exact copyEntryList_no_pattern pats cs q hq c hcq
/-- List version of `copyEntry_no_pattern`. -/
theorem copyEntryList_no_pattern (pats : List String) :
    ∀ (es : EntryList), ∀ p ∈ copyEntryList pats es, ∀ c ∈ p,
      pats.any (fun pat => fnmatchB c pat) = false
  | .nil => by
    intro p hp
    simp [copyEntryList] at hp
  | .cons e es => by
    intro p hp c hc
    rcases List.mem_append.mp (by simpa [copyEntryList] using hp) with h1 | h1
    · exact copyEntry_no_pattern pats e p h1 c hc
    · exact copyEntryList_no_pattern pats es p h1 c hc
end

theorem strAppend_assoc (a b c : String) : (a ++ b) ++ c = a ++ (b ++ c) := by
  cases a
  cases b
  cases c
  exact congrArg String.mk (List.append_assoc _ _ _)

/-- A pattern free of the fnmatch metacharacters `*`, `?`, `[` is matched
literally, so it matches its own spelling. -/
theorem fnMatchAux_literal_self :
    ∀ (cs : List Char) (fuel : Nat), cs.length ≤ fuel →
      (∀ c ∈ cs, c ≠ '*' ∧ c ≠ '?' ∧ c ≠ '[') →
      fnMatchAux fuel cs cs = true := by
  intro cs
  induction cs with
  | nil =>
    intro fuel _ _
    cases fuel <;> rfl
  | cons c cs ih =>
    intro fuel hlen h
    obtain ⟨hc1, hc2, hc3⟩ := h c (List.mem_cons_self c cs)
    cases fuel with
    | zero => exact absurd hlen (by simp)
    | succ f =>
      have hrec : fnMatchAux f cs cs = true :=
        ih f (Nat.le_of_succ_le_succ hlen)
          (fun x hx => h x (List.mem_cons_of_mem c hx))
      simp only [fnMatchAux]
      simp [hrec]

/-- String-level corollary: a metacharacter-free name satisfies the
self-match hypothesis of the C2 theorem. -/
theorem fnmatchB_literal_self (n : String)
    (h : ∀ c ∈ n.data, c ≠ '*' ∧ c ≠ '?' ∧ c ≠ '[') :
    fnmatchB n n = true :=
  fnMatchAux_literal_self n.data (n.data.length + n.data.length + 1) (by omega) h

/-- A single exclude of the form `ip\tail` under the single include path
`ip` always derives the single ignore pattern `tail`. -/
theorem arrangeIgnorePatterns_single (act : Bool) (ip tgt tail : String) :
    arrangeIgnorePatterns ⟨act, [ip], tgt, [ip ++ "\\" ++ tail]⟩ = [tail] := by
  have hstart : startswith (ip ++ "\\" ++ tail) ip = true := by
    rw [strAppend_assoc]
    exact startswith_append ip ("\\" ++ tail)
  simp only [arrangeIgnorePatterns, List.flatMap_cons, List.flatMap_nil,
    List.filterMap_cons, List.filterMap_nil, List.append_nil, hstart, ite_true]
  rw [dropPrefixStr_append (ip ++ "\\") tail]

/-- C2 (counterexample): for the exclude `C:\data\a\b`, nested two
levels under the include path `C:\data`, the derived ignore pattern is
the relative path `a\b`; `copytree` fnmatch-compares patterns against
single entry names, which never contain a separator (and `\` is not an
fnmatch metacharacter), so the file `C:\data\a\b\f.txt` — squarely
under the excluded sub-path — *is* copied during initial sync. -/
theorem c2_nested_exclude_copied :
    arrangeIgnorePatterns ⟨true, ["C:\\data"], "E:\\backup", ["C:\\data\\a\\b"]⟩ = ["a\\b"]
    ∧ ["a", "b", "f.txt"] ∈ copyEntryList ["a\\b"]
        (.cons (.dir "a" (.cons (.dir "b" (.cons (.file "f.txt") .nil)) .nil)) .nil)
    ∧ startswith "C:\\data\\a\\b\\f.txt" ("C:\\data\\a\\b" ++ "\\") = true := by
  refine ⟨by decide, by decide, by decide⟩

/-- C2 (amended): the watcher half holds for *every* exclude `ip\t` of
an include path `ip` — nested or not — because `shouldIgnore`
string-prefix-filters event paths against `join(ip, t)`: the derived
pattern is `t`, every event path under `ip\t` is ignored, and the
created/deleted/moved handlers are no-ops for it. The initial-sync half
holds when the exclude is a direct child `ip\n` whose component name,
read as an fnmatch pattern, matches itself (`fnmatchB n n = true`, which
`fnmatchB_literal_self` shows holds for any name free of the fnmatch
metacharacters `*`, `?` and `[`): then no file whose relative path
starts with the component `n` is copied. Deeper-nested excludes escape the initial sync per the
counterexample, and so does a direct child whose name is an fnmatch
expression not matching itself, such as `[ab]`. -/
theorem c2_excluded_subpath_ignored (ip tgt tgtBase srcName t n suffix destPath2 : String)
    (act : Bool) (tree : EntryList) (fs : FState) (fuel : Nat)
    (hsep : endsWithSep ip = false)
    (hrel : isDriveAbs t = false)
    (hself : fnmatchB n n = true) :
    arrangeIgnorePatterns ⟨act, [ip], tgt, [ip ++ "\\" ++ t]⟩ = [t]
    ∧ shouldIgnore ⟨ip, tgtBase, srcName, arrangeIgnorePatterns ⟨act, [ip], tgt, [ip ++ "\\" ++ t]⟩⟩
        (ip ++ "\\" ++ t ++ suffix) = true
    ∧ on_deleted ⟨ip, tgtBase, srcName, arrangeIgnorePatterns ⟨act, [ip], tgt, [ip ++ "\\" ++ t]⟩⟩
        fs (ip ++ "\\" ++ t ++ suffix) = (fs, [])
    ∧ on_created fuel ⟨ip, tgtBase, srcName, arrangeIgnorePatterns ⟨act, [ip], tgt, [ip ++ "\\" ++ t]⟩⟩
        fs (ip ++ "\\" ++ t ++ suffix) = some (fs, [])
    ∧ on_moved ⟨ip, tgtBase, srcName, arrangeIgnorePatterns ⟨act, [ip], tgt, [ip ++ "\\" ++ t]⟩⟩
        fs (ip ++ "\\" ++ t ++ suffix) destPath2 = (fs, [])
    ∧ (∀ rest, (n :: rest)
        ∉ copyEntryList (arrangeIgnorePatterns ⟨act, [ip], tgt, [ip ++ "\\" ++ n]⟩) tree) := by
  have harrT := arrangeIgnorePatterns_single act ip tgt t
  have harrN := arrangeIgnorePatterns_single act ip tgt n
  have hjoin : osJoin ip t = ip ++ "\\" ++ t := by
    unfold osJoin
    rw [if_neg (by rw [hrel]; exact Bool.false_ne_true),
      if_neg (by rw [hsep]; exact Bool.false_ne_true)]
  have hig : shouldIgnore ⟨ip, tgtBase, srcName,
      arrangeIgnorePatterns ⟨act, [ip], tgt, [ip ++ "\\" ++ t]⟩⟩
      (ip ++ "\\" ++ t ++ suffix) = true := by
    rw [harrT]
    simp only [shouldIgnore, List.any_cons, List.any_nil, Bool.or_false]
    rw [hjoin]
    exact startswith_append (ip ++ "\\" ++ t) suffix
  refine ⟨harrT, hig, ?_, ?_, ?_, ?_⟩
  · simp [on_deleted, hig]
  · simp [on_created, hig]
  · simp [on_moved, hig]
  · intro rest hmem
    have h := copyEntryList_no_pattern _ tree (n :: rest) hmem n (List.mem_cons_self n rest)
    rw [harrN] at h
    simp [hself] at h

/-- C2 witness: the *nested* exclude `C:\data\a\b` is honored by the
watcher (events under it are ignored and the handlers are no-ops), and
for the direct-child exclude `C:\data\tmp` (whose name is
metacharacter-free) no file under it appears among the copied paths of a
concrete tree. -/
theorem c2_excluded_subpath_ignored_witness :
    arrangeIgnorePatterns ⟨true, ["C:\\data"], "E:\\backup", ["C:\\data" ++ "\\" ++ "a\\b"]⟩ = ["a\\b"]
    ∧ shouldIgnore ⟨"C:\\data", "E:\\backup", "data",
        arrangeIgnorePatterns ⟨true, ["C:\\data"], "E:\\backup", ["C:\\data" ++ "\\" ++ "a\\b"]⟩⟩
        ("C:\\data" ++ "\\" ++ "a\\b" ++ "\\f.txt") = true
    ∧ on_deleted ⟨"C:\\data", "E:\\backup", "data",
        arrangeIgnorePatterns ⟨true, ["C:\\data"], "E:\\backup", ["C:\\data" ++ "\\" ++ "a\\b"]⟩⟩
        ⟨[], ["C:\\data"], [], []⟩ ("C:\\data" ++ "\\" ++ "a\\b" ++ "\\f.txt")
      = (⟨[], ["C:\\data"], [], []⟩, [])
    ∧ on_created 2 ⟨"C:\\data", "E:\\backup", "data",
        arrangeIgnorePatterns ⟨true, ["C:\\data"], "E:\\backup", ["C:\\data" ++ "\\" ++ "a\\b"]⟩⟩
        ⟨[], ["C:\\data"], [], []⟩ ("C:\\data" ++ "\\" ++ "a\\b" ++ "\\f.txt")
      = some (⟨[], ["C:\\data"], [], []⟩, [])
    ∧ on_moved ⟨"C:\\data", "E:\\backup", "data",
        arrangeIgnorePatterns ⟨true, ["C:\\data"], "E:\\backup", ["C:\\data" ++ "\\" ++ "a\\b"]⟩⟩
        ⟨[], ["C:\\data"], [], []⟩ ("C:\\data" ++ "\\" ++ "a\\b" ++ "\\f.txt") "C:\\data\\z.txt"
      = (⟨[], ["C:\\data"], [], []⟩, [])
    ∧ (∀ rest, ("tmp" :: rest)
        ∉ copyEntryList (arrangeIgnorePatterns ⟨true, ["C:\\data"], "E:\\backup", ["C:\\data" ++ "\\" ++ "tmp"]⟩)
          (.cons (.dir "tmp" (.cons (.file "f.txt") .nil)) (.cons (.file "a.txt") .nil))) := by
  exact c2_excluded_subpath_ignored "C:\\data" "E:\\backup" "E:\\backup" "data" "a\\b" "tmp"
    "\\f.txt" "C:\\data\\z.txt" true
    (.cons (.dir "tmp" (.cons (.file "f.txt") .nil)) (.cons (.file "a.txt") .nil))
    ⟨[], ["C:\\data"], [], []⟩ 2 (by decide) (by decide) (by decide)

end FiSupporter
